import Mathlib

/-!
# Key-state registry and event translator of `input-source.cpp`

A shallow embedding of the registry helpers (`util_clear_pressed`,
`util_pressed_empty`, `util_key_exists`, `util_add_pressed`,
`util_remove_pressed`), of `mouse_to_vc` and of `proccess_event`, followed by
the properties established about them.

The global array `pressed_keys[MAX_SIMULTANEOUS_KEYS]` is a `List Nat` with one
entry per slot, slot `i` of the array being entry `i` of the list.  Every
`for (int i = 0; i < MAX_SIMULTANEOUS_KEYS; i++)` loop of the source walks the
slots in index order, and is written here as a recursion over the list of
slots, the head being the slot at the current index.
-/

namespace InputOverlay

/-! ## Constants of headers that are not part of the sources -/

/-- Modelled from the spec: the constant `VC_UNDEFINED` of the hook library
header is not in the sources. The spec calls it the value of an empty slot, and the code
tests and clears empty slots with the literal `0`. -/
def VC_UNDEFINED : Nat := 0

/-- The macros and the build switch that `input-source.cpp` takes from headers
outside the sources, as parameters. -/
structure Consts where
  /-- Capacity of `pressed_keys`. -/
  MAX_SIMULTANEOUS_KEYS : Nat
  /-- Mask or-ed onto a mouse button index. -/
  VC_MOUSE_MASK : Nat
  /-- Synthetic code of a wheel-up pulse. -/
  VC_MOUSE_WHEEL_UP : Nat
  /-- Synthetic code of a wheel-down pulse. -/
  VC_MOUSE_WHEEL_DOWN : Nat
  /-- Rotation value of a wheel-up event. -/
  WHEEL_UP : Int
  /-- Rotation value of a wheel-down event. -/
  WHEEL_DOWN : Int
  /-- Whether `WINDOWS` is defined for the build. -/
  WINDOWS : Bool
deriving DecidableEq

/-- Conversion of a non-negative value to `uint16_t`. -/
def toU16 (n : Nat) : Nat := n % 65536

/-- Conversion of an `int` to `int16_t` (wrap modulo 65536). -/
def toI16 (v : Int) : Int := (v + 32768) % 65536 - 32768

/-- A value that an `int16_t` variable can hold. -/
def IsI16 (v : Int) : Prop := -32768 ≤ v ∧ v ≤ 32767

instance (v : Int) : Decidable (IsI16 v) := by unfold IsI16; infer_instance

/-! ## Registry helpers -/

/-- Source function `util_clear_pressed`: every slot is overwritten with `0`. -/
def util_clear_pressed (pressed_keys : List Nat) : List Nat :=
  pressed_keys.map (fun _ => 0)

/-- Source function `util_pressed_empty`: `false` at the first slot `> 0`, `true`
when the scan ends. -/
def util_pressed_empty : List Nat → Bool
  | [] => true
  | k :: rest => if k > 0 then false else util_pressed_empty rest

/-- The scan loop of `util_key_exists`: `true` at the first slot equal to `vc`. -/
def key_scan (vc : Nat) : List Nat → Bool
  | [] => false
  | k :: rest => if k = vc then true else key_scan vc rest

/-- Source function `util_key_exists`: the early return on an empty registry,
then the scan. -/
def util_key_exists (pressed_keys : List Nat) (vc : Nat) : Bool :=
  if util_pressed_empty pressed_keys then false else key_scan vc pressed_keys

/-- The loop of `util_add_pressed`: the first slot equal to `0` receives `vc`,
and the loop stops there. -/
def add_scan (vc : Nat) : List Nat → List Nat
  | [] => []
  | k :: rest => if k = 0 then vc :: rest else k :: add_scan vc rest

/-- Source function `util_add_pressed`: runs the loop only when
`util_key_exists` is false. -/
def util_add_pressed (pressed_keys : List Nat) (vc : Nat) : List Nat :=
  if !util_key_exists pressed_keys vc then add_scan vc pressed_keys else pressed_keys

/-- The loop of `util_remove_pressed`: the first slot equal to `vc` receives
`VC_UNDEFINED`, and the loop stops there. -/
def remove_scan (vc : Nat) : List Nat → List Nat
  | [] => []
  | k :: rest => if k = vc then VC_UNDEFINED :: rest else k :: remove_scan vc rest

/-- Source function `util_remove_pressed`: runs the loop only when
`util_key_exists` is true. -/
def util_remove_pressed (pressed_keys : List Nat) (vc : Nat) : List Nat :=
  if util_key_exists pressed_keys vc then remove_scan vc pressed_keys else pressed_keys

/-! ## Event translation -/

/-- Source function `mouse_to_vc`: off Windows the indices 2 and 3 are
exchanged; the result is `VC_MOUSE_MASK | m` converted to `uint16_t`. -/
def mouse_to_vc (K : Consts) (m : Int) : Nat :=
  let m1 : Int := if K.WINDOWS then m else (if m = 3 then 2 else if m = 2 then 3 else m)
  ((Int.lor (K.VC_MOUSE_MASK : Int) m1) % 65536).toNat

/-- The event kinds of the hook library. -/
inductive event_type where
  | EVENT_HOOK_ENABLED
  | EVENT_HOOK_DISABLED
  | EVENT_KEY_TYPED
  | EVENT_KEY_PRESSED
  | EVENT_KEY_RELEASED
  | EVENT_MOUSE_CLICKED
  | EVENT_MOUSE_PRESSED
  | EVENT_MOUSE_RELEASED
  | EVENT_MOUSE_MOVED
  | EVENT_MOUSE_DRAGGED
  | EVENT_MOUSE_WHEEL
deriving DecidableEq

/-- The fields of `uiohook_event` that `proccess_event` reads. The members of
the `data` union are kept as separate fields: `keyboard_keycode` is
`data.keyboard.keycode`, `mouse_button` is `data.mouse.button`, and so on. -/
structure uiohook_event where
  type : event_type
  keyboard_keycode : Nat
  mouse_button : Nat
  mouse_x : Int
  mouse_y : Int
  wheel_rotation : Int
deriving DecidableEq

/-- The globals written by `proccess_event`. -/
structure HookState where
  pressed_keys : List Nat
  mouse_x : Int
  mouse_y : Int
  mouse_x_smooth : Int
  mouse_y_smooth : Int
  mouse_last_x : Int
  mouse_last_y : Int
deriving DecidableEq

/-- The expression `(last * 4 + cur + 4) / 5` of `proccess_event`, evaluated in
`int` with the division of C (truncation toward zero). -/
def smooth_int (last cur : Int) : Int := Int.tdiv (last * 4 + cur + 4) 5

/-- The value stored in `mouse_x_smooth` / `mouse_y_smooth`: the `int` result
converted to `int16_t`. -/
def smooth (last cur : Int) : Int := toI16 (smooth_int last cur)

/-- Source function `proccess_event`: both wheel codes are removed, then the
`switch` on the event kind adds or removes one code or, for a motion or drag,
updates the mouse globals. Event kinds without a `case` change nothing more. -/
def proccess_event (K : Consts) (e : uiohook_event) (s : HookState) : HookState :=
  let r0 := util_remove_pressed s.pressed_keys (toU16 K.VC_MOUSE_WHEEL_UP)
  let r := util_remove_pressed r0 (toU16 K.VC_MOUSE_WHEEL_DOWN)
  match e.type with
  | .EVENT_KEY_PRESSED =>
      if !util_key_exists r e.keyboard_keycode then
        { s with pressed_keys := util_add_pressed r e.keyboard_keycode }
      else { s with pressed_keys := r }
  | .EVENT_KEY_RELEASED =>
      if util_key_exists r e.keyboard_keycode then
        { s with pressed_keys := util_remove_pressed r e.keyboard_keycode }
      else { s with pressed_keys := r }
  | .EVENT_MOUSE_PRESSED =>
      if !util_key_exists r (mouse_to_vc K e.keyboard_keycode) then
        { s with pressed_keys := util_add_pressed r (mouse_to_vc K e.keyboard_keycode) }
      else { s with pressed_keys := r }
  | .EVENT_MOUSE_RELEASED =>
      if util_key_exists r (mouse_to_vc K e.mouse_button) then
        { s with pressed_keys := util_remove_pressed r (mouse_to_vc K e.mouse_button) }
      else { s with pressed_keys := r }
  | .EVENT_MOUSE_WHEEL =>
      if e.wheel_rotation = K.WHEEL_UP then
        (if !util_key_exists r (toU16 K.VC_MOUSE_WHEEL_UP) then
          { s with pressed_keys := util_add_pressed r (toU16 K.VC_MOUSE_WHEEL_UP) }
        else { s with pressed_keys := r })
      else if e.wheel_rotation = K.WHEEL_DOWN then
        (if !util_key_exists r (toU16 K.VC_MOUSE_WHEEL_DOWN) then
          { s with pressed_keys := util_add_pressed r (toU16 K.VC_MOUSE_WHEEL_DOWN) }
        else { s with pressed_keys := r })
      else { s with pressed_keys := r }
  | .EVENT_MOUSE_DRAGGED | .EVENT_MOUSE_MOVED =>
      { pressed_keys := r
        mouse_last_x := s.mouse_x
        mouse_last_y := s.mouse_y
        mouse_x := e.mouse_x
        mouse_y := e.mouse_y
        mouse_x_smooth := smooth s.mouse_x e.mouse_x
        mouse_y_smooth := smooth s.mouse_y e.mouse_y }
  | _ => { s with pressed_keys := r }

/-! ## Derived notions used in the statements -/

/-- No two occupied slots hold the same code: the non-`0` slots, listed in
index order, have no repetition. -/
def NoDupKeys (pressed_keys : List Nat) : Prop :=
  (pressed_keys.filter (fun k => decide (k ≠ VC_UNDEFINED))).Nodup

instance (r : List Nat) : Decidable (NoDupKeys r) := by unfold NoDupKeys; infer_instance

/-- Number of occupied (non-`0`) slots. -/
def occupied (pressed_keys : List Nat) : Nat :=
  (pressed_keys.filter (fun k => decide (k ≠ VC_UNDEFINED))).length

/-- A call on the registry: `util_add_pressed` or `util_remove_pressed` with a code. -/
inductive RegOp where
  | add (vc : Nat)
  | remove (vc : Nat)
deriving DecidableEq

/-- The code a call is made with. -/
def RegOp.code : RegOp → Nat
  | .add vc => vc
  | .remove vc => vc

/-- The registry after one call. -/
def apply_op (pressed_keys : List Nat) : RegOp → List Nat
  | .add vc => util_add_pressed pressed_keys vc
  | .remove vc => util_remove_pressed pressed_keys vc

/-- The registry after a sequence of calls, made from left to right. -/
def run_ops (pressed_keys : List Nat) (ops : List RegOp) : List Nat :=
  ops.foldl apply_op pressed_keys

/-- The last call of the sequence made with code `c`, if there is one. -/
def last_op_on (c : Nat) (ops : List RegOp) : Option RegOp :=
  ops.reverse.find? (fun op => decide (op.code = c))

/-- The codes whose last call in the sequence is an add, each listed once. -/
def held_codes (ops : List RegOp) : List Nat :=
  (ops.map RegOp.code).dedup.filter (fun c => decide (last_op_on c ops = some (RegOp.add c)))

/-- The registry left by the two `util_remove_pressed` calls that open
`proccess_event`, before its `switch`. -/
def wheel_preclear (K : Consts) (pressed_keys : List Nat) : List Nat :=
  util_remove_pressed (util_remove_pressed pressed_keys (toU16 K.VC_MOUSE_WHEEL_UP))
    (toU16 K.VC_MOUSE_WHEEL_DOWN)

/-- The members `keyboard` and `mouse` of the `data` union share their storage,
and each starts with one `uint16_t` (`keycode`, `button`): an event read through
either member shows the same value there. The union is declared by the hook
library, outside the sources. -/
def UnionOverlay (e : uiohook_event) : Prop := e.keyboard_keycode = e.mouse_button

instance (e : uiohook_event) : Decidable (UnionOverlay e) := by
  unfold UnionOverlay; infer_instance

/-- Modelled from the spec: the values of the wheel macros are not in the sources.
The spec speaks of two synthetic codes for wheel-up and wheel-down, distinct
from the empty marker, and of two rotation directions. -/
def WheelCodesValid (K : Consts) : Prop :=
  toU16 K.VC_MOUSE_WHEEL_UP ≠ VC_UNDEFINED ∧ toU16 K.VC_MOUSE_WHEEL_DOWN ≠ VC_UNDEFINED ∧
    toU16 K.VC_MOUSE_WHEEL_UP ≠ toU16 K.VC_MOUSE_WHEEL_DOWN ∧ K.WHEEL_UP ≠ K.WHEEL_DOWN

instance (K : Consts) : Decidable (WheelCodesValid K) := by
  unfold WheelCodesValid; infer_instance

/-- The globals after a sequence of events, dispatched from left to right. -/
def run_events (K : Consts) (es : List uiohook_event) (s : HookState) : HookState :=
  es.foldl (fun st e => proccess_event K e st) s

/-- Number of indices at which two registry states hold different values. -/
def differing_slots : List Nat → List Nat → Nat
  | a :: r, b :: r' => (if a = b then 0 else 1) + differing_slots r r'
  | _, _ => 0

/-! ## Hook lifecycle -/

/-- The status macros of the hook library that `hook_enable` and `start_hook`
use, as parameters. -/
structure StatusCodes where
  UIOHOOK_SUCCESS : Int
  UIOHOOK_FAILURE : Int
deriving DecidableEq

/-- The outcome of the start handshake, seen sequentially: whether the thread
was created, whether the trylock on `hook_running_mutex` after the wake
succeeded, the status `hook_run` returned in the hook thread, and the content
of the freshly allocated `*hook_thread_status`. -/
structure Handshake where
  thread_created : Bool
  trylock_succeeds : Bool
  hook_run_status : Int
  malloc_content : Int
deriving DecidableEq

/-- Source function `hook_thread_proc`, as the content of `*arg` when the thread
ends: the status of `hook_run` is stored only when it is not `UIOHOOK_SUCCESS`. -/
def hook_thread_proc (C : StatusCodes) (hook_run_status : Int) (arg_content : Int) : Int :=
  if hook_run_status ≠ C.UIOHOOK_SUCCESS then hook_run_status else arg_content

/-- What `hook_enable` returns, and whether it joined the hook thread. -/
structure EnableResult where
  status : Int
  joined : Bool
deriving DecidableEq

/-- Source function `hook_enable`. `status` starts as `UIOHOOK_FAILURE`. The test
of the `if` is `pthread_create(...) == 0` on POSIX and
`hook_thread != INVALID_HANDLE_VALUE` on Windows; `CreateThread` reports a
failure with `NULL`, so on Windows the test passes whether or not a thread
exists. Past the test the owner waits on `hook_control_cond`, which only a hook
thread signals: without a thread the wait does not end and there is no result
(`none`). After the wake, when the trylock succeeds the thread is joined; the
POSIX path then assigns `status = *hook_thread_status`, the Windows path only
lets `GetExitCodeThread` write into `*hook_thread_status` and leaves `status`
as it is. When the trylock fails `status` is `UIOHOOK_SUCCESS`; when the test
fails it is `-1`. -/
def hook_enable (K : Consts) (C : StatusCodes) (h : Handshake) : Option EnableResult :=
  let status := C.UIOHOOK_FAILURE
  let test_passes : Bool := if K.WINDOWS then true else h.thread_created
  if test_passes then
    if h.thread_created then
      if h.trylock_succeeds then
        if K.WINDOWS then
          some { status := status, joined := true }
        else
          some { status := hook_thread_proc C h.hook_run_status h.malloc_content, joined := true }
      else
        some { status := C.UIOHOOK_SUCCESS, joined := false }
    else none
  else
    some { status := -1, joined := false }

/-- One of the three synchronization primitives, as the number of calls that
created it and the number of calls that destroyed it. -/
structure SyncPrim where
  init_calls : Nat
  destroy_calls : Nat
deriving DecidableEq

/-- The state that `start_hook` and `end_hook` act on: the flag
`hook_initialized`, the three primitives, the number of `CloseHandle` calls on
`hook_thread`, the number of `hook_stop` calls, and the registry and mouse
globals. -/
structure Controller where
  hook_initialized : Bool
  hook_running_mutex : SyncPrim
  hook_control_mutex : SyncPrim
  hook_control_cond : SyncPrim
  hook_thread_closed : Nat
  hook_stop_calls : Nat
  globals : HookState
deriving DecidableEq

/-- One more creating call on a primitive. -/
def SyncPrim.init (p : SyncPrim) : SyncPrim := { p with init_calls := p.init_calls + 1 }

/-- One more destroying call on a primitive. -/
def SyncPrim.destroy (p : SyncPrim) : SyncPrim :=
  { p with destroy_calls := p.destroy_calls + 1 }

/-- Source function `start_hook`: the three primitives are created, then
`hook_enable` runs, and `hook_initialized` is set when it returns
`UIOHOOK_SUCCESS`; every other status is only logged. When `hook_enable` does
not return, neither does `start_hook`. -/
def start_hook (K : Consts) (C : StatusCodes) (h : Handshake) (c : Controller) :
    Option Controller :=
  let c1 : Controller :=
    { c with
      hook_running_mutex := c.hook_running_mutex.init
      hook_control_mutex := c.hook_control_mutex.init
      hook_control_cond := c.hook_control_cond.init }
  match hook_enable K C h with
  | none => none
  | some res =>
    if res.status = C.UIOHOOK_SUCCESS then some { c1 with hook_initialized := true }
    else some c1

/-- Source function `end_hook`: the three primitives are destroyed (on Windows
the thread handle is closed as well), then `hook_stop` is called. The body reads
no flag and writes no other global; the call of `hook_stop`, a function of the
hook library, is recorded as a count. -/
def end_hook (K : Consts) (c : Controller) : Controller :=
  { c with
    hook_thread_closed := if K.WINDOWS then c.hook_thread_closed + 1 else c.hook_thread_closed
    hook_running_mutex := c.hook_running_mutex.destroy
    hook_control_mutex := c.hook_control_mutex.destroy
    hook_control_cond := c.hook_control_cond.destroy
    hook_stop_calls := c.hook_stop_calls + 1 }

/-! ## Snapshot of the registry into the layout -/

/-- The fields of `InputKey` that `InputSource::check_keys` reads and writes. -/
structure InputKey where
  m_key_code : Nat
  m_pressed : Bool
deriving DecidableEq

/-- The layout kinds named in the sources. -/
inductive LayoutType where
  | TYPE_KEYBOARD
  | TYPE_MOUSE
  | TYPE_CONTROLLER
deriving DecidableEq

/-- The fields of `m_layout` that `InputSource::check_keys` uses: the vector
`m_keys` is a list, entry `i` being `m_keys[i]`. -/
structure OverlayLayout where
  m_is_loaded : Bool
  m_type : LayoutType
  m_key_count : Int
  m_keys : List InputKey
deriving DecidableEq

/-- The part of an `InputSource` object that `check_keys` acts on. -/
structure InputSource where
  m_layout : OverlayLayout
deriving DecidableEq

/-- The first loop of `check_keys`, with `n` iterations left and the keys from
the current index on: each iteration writes `m_pressed = false`. An index past
the end of `m_keys` has no defined behaviour and gives `none`. -/
def reset_pressed_loop : Nat → List InputKey → Option (List InputKey)
  | 0, keys => some keys
  | _ + 1, [] => none
  | n + 1, k :: rest =>
    match reset_pressed_loop n rest with
    | some rest1 => some ({ k with m_pressed := false } :: rest1)
    | none => none

/-- The second loop of `check_keys`, with `n` iterations left and the keys from
the current index on: each iteration writes `m_pressed = true` when
`util_key_exists` holds for the code of the key. -/
def mark_pressed_loop (pressed_keys : List Nat) : Nat → List InputKey → Option (List InputKey)
  | 0, keys => some keys
  | _ + 1, [] => none
  | n + 1, k :: rest =>
    match mark_pressed_loop pressed_keys n rest with
    | some rest1 =>
      some ((if util_key_exists pressed_keys k.m_key_code then { k with m_pressed := true }
        else k) :: rest1)
    | none => none

/-- Source function `InputSource::check_keys`, run against the registry
`pressed_keys`. For a loaded keyboard or mouse layout every flag below
`m_key_count` is reset, then set again from the registry unless
`util_pressed_empty` holds. For a controller layout the work is handed to
`m_gamepad->check_keys()`, a function outside the sources that holds a pointer
to `m_keys`; it is the parameter `gamepad_check_keys`. -/
def InputSource.check_keys (gamepad_check_keys : List InputKey → List InputKey)
    (pressed_keys : List Nat) (self : InputSource) : Option InputSource :=
  if self.m_layout.m_is_loaded then
    if self.m_layout.m_type = LayoutType.TYPE_KEYBOARD ∨
        self.m_layout.m_type = LayoutType.TYPE_MOUSE then
      match reset_pressed_loop self.m_layout.m_key_count.toNat self.m_layout.m_keys with
      | none => none
      | some keys1 =>
        if !util_pressed_empty pressed_keys then
          match mark_pressed_loop pressed_keys self.m_layout.m_key_count.toNat keys1 with
          | none => none
          | some keys2 => some { self with m_layout := { self.m_layout with m_keys := keys2 } }
        else some { self with m_layout := { self.m_layout with m_keys := keys1 } }
    else if self.m_layout.m_type = LayoutType.TYPE_CONTROLLER then
      some { self with
        m_layout := { self.m_layout with m_keys := gamepad_check_keys self.m_layout.m_keys } }
    else some self
  else some self

/-! ## Lemmas on the scans -/

theorem util_pressed_empty_eq_true (r : List Nat) :
    util_pressed_empty r = true ↔ ∀ x ∈ r, x = 0 := by
  induction r with
  | nil => simp [util_pressed_empty]
  | cons k rest ih =>
    by_cases hk : k = 0
    · simp [util_pressed_empty, hk, ih]
    · have : k > 0 := Nat.pos_of_ne_zero hk
      simp [util_pressed_empty, hk, this]

theorem util_pressed_empty_eq_false (r : List Nat) :
    util_pressed_empty r = false ↔ ∃ x ∈ r, x ≠ 0 := by
  rw [← Bool.not_eq_true, util_pressed_empty_eq_true]
  push_neg
  rfl

theorem key_scan_eq_true (vc : Nat) (r : List Nat) : key_scan vc r = true ↔ vc ∈ r := by
  induction r with
  | nil => simp [key_scan]
  | cons k rest ih =>
    by_cases hk : k = vc
    · simp [key_scan, hk]
    · have hk2 : ¬ vc = k := fun h => hk h.symm
      simp [key_scan, hk, hk2, ih]

theorem util_key_exists_eq_true (r : List Nat) (vc : Nat) :
    util_key_exists r vc = true ↔ vc ∈ r ∧ ∃ x ∈ r, x ≠ 0 := by
  unfold util_key_exists
  cases he : util_pressed_empty r with
  | true =>
    have h0 := (util_pressed_empty_eq_true r).1 he
    simp only [if_true]
    constructor
    · intro h; cases h
    · rintro ⟨_, x, hx, hx0⟩; exact absurd (h0 x hx) hx0
  | false =>
    have h1 := (util_pressed_empty_eq_false r).1 he
    simp [key_scan_eq_true, h1]

theorem util_key_exists_of_ne_zero (r : List Nat) {vc : Nat} (hvc : vc ≠ 0) :
    util_key_exists r vc = true ↔ vc ∈ r := by
  rw [util_key_exists_eq_true]
  exact ⟨fun h => h.1, fun h => ⟨h, vc, h, hvc⟩⟩

theorem util_key_exists_zero (r : List Nat) :
    util_key_exists r 0 = true ↔ 0 ∈ r ∧ ∃ x ∈ r, x ≠ 0 :=
  util_key_exists_eq_true r 0

theorem add_scan_length (vc : Nat) (r : List Nat) : (add_scan vc r).length = r.length := by
  induction r with
  | nil => rfl
  | cons k rest ih => by_cases hk : k = 0 <;> simp [add_scan, hk, ih]

theorem add_scan_of_not_mem (vc : Nat) (r : List Nat) (h : 0 ∉ r) : add_scan vc r = r := by
  induction r with
  | nil => rfl
  | cons k rest ih =>
    have hk : k ≠ 0 := fun hk => h (by simp [hk])
    have hr : 0 ∉ rest := fun hr => h (List.mem_cons_of_mem _ hr)
    simp [add_scan, hk, ih hr]

theorem add_scan_zero (r : List Nat) : add_scan 0 r = r := by
  induction r with
  | nil => rfl
  | cons k rest ih => by_cases hk : k = 0 <;> simp [add_scan, hk, ih]

theorem add_scan_eq_set (vc : Nat) (r : List Nat) (h : 0 ∈ r) :
    ∃ i, r[i]? = some 0 ∧ (∀ j, j < i → r[j]? ≠ some 0) ∧ add_scan vc r = r.set i vc := by
  induction r with
  | nil => simp at h
  | cons k rest ih =>
    by_cases hk : k = 0
    · exact ⟨0, by simp [hk], by intro j hj; omega, by simp [add_scan, hk]⟩
    · have hr : 0 ∈ rest := by
        rcases List.mem_cons.1 h with h0 | h0
        · exact absurd h0.symm hk
        · exact h0
      obtain ⟨i, hi, hlt, hset⟩ := ih hr
      refine ⟨i + 1, by simpa using hi, ?_, by simp [add_scan, hk, hset]⟩
      intro j hj
      cases j with
      | zero => simpa using hk
      | succ j => simpa using hlt j (by omega)

theorem mem_add_scan (vc : Nat) (r : List Nat) (h : 0 ∈ r) : vc ∈ add_scan vc r := by
  induction r with
  | nil => simp at h
  | cons k rest ih =>
    by_cases hk : k = 0
    · simp [add_scan, hk]
    · have hr : 0 ∈ rest := by
        rcases List.mem_cons.1 h with h0 | h0
        · exact absurd h0.symm hk
        · exact h0
      simp [add_scan, hk, ih hr]

theorem mem_add_scan_iff (vc : Nat) (r : List Nat) {c : Nat} (hc0 : c ≠ 0) (hc : c ≠ vc) :
    c ∈ add_scan vc r ↔ c ∈ r := by
  induction r with
  | nil => simp [add_scan]
  | cons k rest ih =>
    by_cases hk : k = 0
    · simp [add_scan, hk, hc0, hc]
    · simp [add_scan, hk, ih]

theorem remove_scan_length (vc : Nat) (r : List Nat) :
    (remove_scan vc r).length = r.length := by
  induction r with
  | nil => rfl
  | cons k rest ih => by_cases hk : k = vc <;> simp [remove_scan, hk, ih]

theorem remove_scan_eq_set (vc : Nat) (r : List Nat) (h : vc ∈ r) :
    ∃ i, r[i]? = some vc ∧ (∀ j, j < i → r[j]? ≠ some vc) ∧
      remove_scan vc r = r.set i VC_UNDEFINED := by
  induction r with
  | nil => simp at h
  | cons k rest ih =>
    by_cases hk : k = vc
    · exact ⟨0, by simp [hk], by intro j hj; omega, by simp [remove_scan, hk]⟩
    · have hr : vc ∈ rest := by
        rcases List.mem_cons.1 h with h0 | h0
        · exact absurd h0.symm hk
        · exact h0
      obtain ⟨i, hi, hlt, hset⟩ := ih hr
      refine ⟨i + 1, by simpa using hi, ?_, by simp [remove_scan, hk, hset]⟩
      intro j hj
      cases j with
      | zero => simpa using hk
      | succ j => simpa using hlt j (by omega)

theorem mem_remove_scan_iff (vc : Nat) (r : List Nat) {c : Nat} (hc0 : c ≠ 0) (hc : c ≠ vc) :
    c ∈ remove_scan vc r ↔ c ∈ r := by
  induction r with
  | nil => simp [remove_scan]
  | cons k rest ih =>
    by_cases hk : k = vc
    · simp [remove_scan, hk, hc0, hc, VC_UNDEFINED]
    · simp [remove_scan, hk, ih]

theorem noDupKeys_cons (k : Nat) (rest : List Nat) :
    NoDupKeys (k :: rest) ↔ (k ≠ 0 → k ∉ rest) ∧ NoDupKeys rest := by
  unfold NoDupKeys
  by_cases hk0 : k = 0
  · simp [List.filter_cons, VC_UNDEFINED, hk0]
  · simp [List.filter_cons, VC_UNDEFINED, hk0, List.mem_filter]

theorem not_mem_remove_scan (vc : Nat) (r : List Nat) (hvc : vc ≠ 0) (hnd : NoDupKeys r) :
    vc ∉ remove_scan vc r := by
  induction r with
  | nil => simp [remove_scan]
  | cons k rest ih =>
    rw [noDupKeys_cons] at hnd
    by_cases hk : k = vc
    · subst hk
      simp [remove_scan, VC_UNDEFINED, hvc, hnd.1 hvc]
    · have hk2 : ¬ vc = k := fun h => hk h.symm
      simp [remove_scan, hk, hk2, ih hnd.2]

theorem noDupKeys_add_scan (vc : Nat) (r : List Nat) (hnd : NoDupKeys r) (h : vc ∉ r) :
    NoDupKeys (add_scan vc r) := by
  induction r with
  | nil => simpa [add_scan] using hnd
  | cons k rest ih =>
    rw [noDupKeys_cons] at hnd
    have hkv : vc ≠ k := fun e => h (by simp [e])
    have hrest : vc ∉ rest := fun hm => h (List.mem_cons_of_mem _ hm)
    by_cases hk : k = 0
    · simp only [add_scan, hk, if_true]
      rw [noDupKeys_cons]
      exact ⟨fun _ => hrest, hnd.2⟩
    · simp only [add_scan, hk, if_false]
      rw [noDupKeys_cons]
      refine ⟨fun _ => ?_, ih hnd.2 hrest⟩
      rw [mem_add_scan_iff vc rest hk (fun e => hkv e.symm)]
      exact hnd.1 hk

theorem noDupKeys_remove_scan (vc : Nat) (r : List Nat) (hnd : NoDupKeys r) :
    NoDupKeys (remove_scan vc r) := by
  induction r with
  | nil => simpa [remove_scan] using hnd
  | cons k rest ih =>
    rw [noDupKeys_cons] at hnd
    by_cases hk : k = vc
    · simp only [remove_scan, hk, if_true]
      rw [noDupKeys_cons]
      exact ⟨fun h0 => absurd rfl h0, hnd.2⟩
    · simp only [remove_scan, hk, if_false]
      rw [noDupKeys_cons]
      refine ⟨fun hk0 => ?_, ih hnd.2⟩
      rw [mem_remove_scan_iff vc rest hk0 hk]
      exact hnd.1 hk0

theorem noDupKeys_clear (r : List Nat) : NoDupKeys (util_clear_pressed r) := by
  induction r with
  | nil => simp [util_clear_pressed, NoDupKeys]
  | cons k rest ih =>
    have : util_clear_pressed (k :: rest) = 0 :: util_clear_pressed rest := rfl
    rw [this, noDupKeys_cons]
    exact ⟨fun h => absurd rfl h, ih⟩

theorem noDupKeys_add (r : List Nat) (vc : Nat) (hnd : NoDupKeys r) :
    NoDupKeys (util_add_pressed r vc) := by
  unfold util_add_pressed
  cases he : util_key_exists r vc with
  | true => simpa using hnd
  | false =>
    simp only [Bool.not_false, if_true]
    by_cases hvc : vc = 0
    · rw [hvc, add_scan_zero]; exact hnd
    · apply noDupKeys_add_scan vc r hnd
      intro hm
      have := (util_key_exists_of_ne_zero r hvc).2 hm
      rw [he] at this
      cases this

theorem noDupKeys_remove (r : List Nat) (vc : Nat) (hnd : NoDupKeys r) :
    NoDupKeys (util_remove_pressed r vc) := by
  unfold util_remove_pressed
  split
  · exact noDupKeys_remove_scan vc r hnd
  · exact hnd

theorem noDupKeys_proccess_event (K : Consts) (e : uiohook_event) (s : HookState)
    (hnd : NoDupKeys s.pressed_keys) : NoDupKeys (proccess_event K e s).pressed_keys := by
  have hr := noDupKeys_remove _ (toU16 K.VC_MOUSE_WHEEL_DOWN)
    (noDupKeys_remove _ (toU16 K.VC_MOUSE_WHEEL_UP) hnd)
  unfold proccess_event
  cases e.type <;> simp only [] <;> (try split_ifs) <;>
    first
      | exact hr
      | exact noDupKeys_add _ _ hr
      | exact noDupKeys_remove _ _ hr

/-! ## Lemmas on sequences of calls -/

theorem util_add_pressed_length (r : List Nat) (vc : Nat) :
    (util_add_pressed r vc).length = r.length := by
  unfold util_add_pressed
  split
  · exact add_scan_length vc r
  · rfl

theorem util_remove_pressed_length (r : List Nat) (vc : Nat) :
    (util_remove_pressed r vc).length = r.length := by
  unfold util_remove_pressed
  split
  · exact remove_scan_length vc r
  · rfl

theorem util_clear_pressed_length (r : List Nat) : (util_clear_pressed r).length = r.length := by
  simp [util_clear_pressed]

theorem apply_op_length (r : List Nat) (op : RegOp) : (apply_op r op).length = r.length := by
  cases op with
  | add vc => exact util_add_pressed_length r vc
  | remove vc => exact util_remove_pressed_length r vc

theorem run_ops_length (r : List Nat) (ops : List RegOp) : (run_ops r ops).length = r.length := by
  induction ops generalizing r with
  | nil => rfl
  | cons op rest ih =>
    have : run_ops r (op :: rest) = run_ops (apply_op r op) rest := rfl
    rw [this, ih, apply_op_length]

theorem run_ops_snoc (r : List Nat) (ops : List RegOp) (op : RegOp) :
    run_ops r (ops ++ [op]) = apply_op (run_ops r ops) op := by
  simp [run_ops, List.foldl_append]

theorem occupied_le_length (r : List Nat) : occupied r ≤ r.length :=
  List.length_filter_le _ r

theorem last_op_on_snoc (c : Nat) (ops : List RegOp) (op : RegOp) :
    last_op_on c (ops ++ [op]) = if op.code = c then some op else last_op_on c ops := by
  unfold last_op_on
  rw [List.reverse_append]
  by_cases h : op.code = c <;> simp [List.find?_cons, h]

theorem code_mem_of_last_op_on {c : Nat} {ops : List RegOp} {op : RegOp}
    (h : last_op_on c ops = some op) : c ∈ ops.map RegOp.code := by
  unfold last_op_on at h
  have h1 := List.mem_of_find?_eq_some h
  have h2 := List.find?_some h
  simp only [decide_eq_true_eq] at h2
  rw [List.mem_reverse] at h1
  rw [← h2]
  exact List.mem_map_of_mem _ h1

theorem mem_held_codes (c : Nat) (ops : List RegOp) :
    c ∈ held_codes ops ↔ last_op_on c ops = some (RegOp.add c) := by
  unfold held_codes
  rw [List.mem_filter, List.mem_dedup]
  simp only [decide_eq_true_eq]
  exact ⟨fun h => h.2, fun h => ⟨code_mem_of_last_op_on h, h⟩⟩

theorem mem_util_add_pressed_iff (r : List Nat) (vc : Nat) {c : Nat} (hc0 : c ≠ 0)
    (hc : c ≠ vc) : c ∈ util_add_pressed r vc ↔ c ∈ r := by
  unfold util_add_pressed
  split
  · exact mem_add_scan_iff vc r hc0 hc
  · rfl

theorem mem_util_remove_pressed_iff (r : List Nat) (vc : Nat) {c : Nat} (hc0 : c ≠ 0)
    (hc : c ≠ vc) : c ∈ util_remove_pressed r vc ↔ c ∈ r := by
  unfold util_remove_pressed
  split
  · exact mem_remove_scan_iff vc r hc0 hc
  · rfl

theorem not_mem_util_remove_pressed (r : List Nat) {vc : Nat} (hvc : vc ≠ 0)
    (hnd : NoDupKeys r) : vc ∉ util_remove_pressed r vc := by
  unfold util_remove_pressed
  cases he : util_key_exists r vc with
  | true => simpa using not_mem_remove_scan vc r hvc hnd
  | false =>
    simp only [Bool.false_eq_true, if_false]
    intro hm
    have := (util_key_exists_of_ne_zero r hvc).2 hm
    rw [he] at this
    cases this

theorem mem_util_add_pressed_self (r : List Nat) {vc : Nat} (hvc : vc ≠ 0)
    (h : vc ∈ r ∨ 0 ∈ r) : vc ∈ util_add_pressed r vc := by
  unfold util_add_pressed
  cases he : util_key_exists r vc with
  | true => simpa using (util_key_exists_of_ne_zero r hvc).1 he
  | false =>
    simp only [Bool.not_false, if_true]
    rcases h with h | h
    · have := (util_key_exists_of_ne_zero r hvc).2 h
      rw [he] at this
      cases this
    · exact mem_add_scan vc r h

theorem nodup_of_noDupKeys (r : List Nat) (h0 : 0 ∉ r) (hnd : NoDupKeys r) : r.Nodup := by
  unfold NoDupKeys at hnd
  have : r.filter (fun k => decide (k ≠ VC_UNDEFINED)) = r := by
    rw [List.filter_eq_self]
    intro a ha
    have : a ≠ 0 := fun e => h0 (e ▸ ha)
    simpa [VC_UNDEFINED] using this
  rwa [this] at hnd

/-- When one more code fits among the held codes, the registry that mirrors the
calls made so far has an empty slot. -/
theorem free_slot_of_held_le (cap : Nat) (ops : List RegOp) (r : List Nat) (vc : Nat)
    (hlen : r.length = cap) (hnd : NoDupKeys r)
    (hmem : ∀ c, c ≠ 0 → (c ∈ r ↔ last_op_on c ops = some (RegOp.add c)))
    (hvc : vc ∉ r) (hcap : (held_codes (ops ++ [RegOp.add vc])).length ≤ cap) : 0 ∈ r := by
  by_contra h0
  have hnd2 : (vc :: r).Nodup := List.nodup_cons.2 ⟨hvc, nodup_of_noDupKeys r h0 hnd⟩
  have hsub : (vc :: r) ⊆ held_codes (ops ++ [RegOp.add vc]) := by
    intro x hx
    rw [mem_held_codes, last_op_on_snoc]
    rcases List.mem_cons.1 hx with hx | hx
    · simp [RegOp.code, hx]
    · have hx0 : x ≠ 0 := fun e => h0 (e ▸ hx)
      have hxv : vc ≠ x := fun e => hvc (e ▸ hx)
      simp only [RegOp.code, hxv, if_false]
      exact (hmem x hx0).1 hx
  have := (hnd2.subperm hsub).length_le
  simp only [List.length_cons, hlen] at this
  omega

/-- The registry obtained from a cleared one mirrors the calls made, as long as
the held codes never outnumber the slots. -/
theorem run_ops_mirror (cap : Nat) (ops : List RegOp)
    (hcap : ∀ n, (held_codes (ops.take n)).length ≤ cap) :
    (run_ops (List.replicate cap 0) ops).length = cap ∧
      NoDupKeys (run_ops (List.replicate cap 0) ops) ∧
      ∀ c, c ≠ 0 →
        (c ∈ run_ops (List.replicate cap 0) ops ↔ last_op_on c ops = some (RegOp.add c)) := by
  induction ops using List.reverseRecOn with
  | nil =>
    refine ⟨by simp [run_ops], ?_, ?_⟩
    · simp [run_ops, NoDupKeys, VC_UNDEFINED]
    · intro c hc
      simp only [run_ops, List.foldl_nil, last_op_on, List.reverse_nil, List.find?_nil,
        List.mem_replicate, iff_false, reduceCtorEq]
      exact fun h => hc h.2
  | append_singleton l a ih =>
    have hcapl : ∀ n, (held_codes (l.take n)).length ≤ cap := by
      intro n
      by_cases hn : n ≤ l.length
      · have := hcap n
        rwa [List.take_append_of_le_length hn] at this
      · have := hcap l.length
        rw [List.take_append_of_le_length (Nat.le_refl _), List.take_length] at this
        rw [List.take_of_length_le (by omega)]
        exact this
    have hfull : (held_codes (l ++ [a])).length ≤ cap := by
      have := hcap (l ++ [a]).length
      rwa [List.take_length] at this
    obtain ⟨hlen, hnd, hmem⟩ := ih hcapl
    rw [run_ops_snoc]
    generalize run_ops (List.replicate cap 0) l = r at hlen hnd hmem ⊢
    cases a with
    | add vc =>
      refine ⟨by rw [apply_op_length, hlen], noDupKeys_add r vc hnd, ?_⟩
      intro c hc
      rw [last_op_on_snoc]
      by_cases hcv : vc = c
      · subst hcv
        simp only [RegOp.code, if_true, iff_true]
        apply mem_util_add_pressed_self r hc
        by_cases hin : vc ∈ r
        · exact Or.inl hin
        · exact Or.inr (free_slot_of_held_le cap l r vc hlen hnd hmem hin hfull)
      · simp only [RegOp.code, hcv, if_false]
        show c ∈ util_add_pressed r vc ↔ _
        rw [mem_util_add_pressed_iff r vc hc (fun e => hcv e.symm)]
        exact hmem c hc
    | remove vc =>
      refine ⟨by rw [apply_op_length, hlen], noDupKeys_remove r vc hnd, ?_⟩
      intro c hc
      rw [last_op_on_snoc]
      by_cases hcv : vc = c
      · subst hcv
        simp only [RegOp.code, if_true, Option.some.injEq, reduceCtorEq, iff_false]
        exact not_mem_util_remove_pressed r hc hnd
      · simp only [RegOp.code, hcv, if_false]
        show c ∈ util_remove_pressed r vc ↔ _
        rw [mem_util_remove_pressed_iff r vc hc (fun e => hcv e.symm)]
        exact hmem c hc

theorem util_clear_pressed_eq_replicate (r : List Nat) :
    util_clear_pressed r = List.replicate r.length 0 := by
  induction r with
  | nil => rfl
  | cons k rest ih =>
    have : util_clear_pressed (k :: rest) = 0 :: util_clear_pressed rest := rfl
    rw [this, ih]
    rfl

/-! ## Lemmas on the smoothing arithmetic -/

theorem tdiv_five (n : Int) :
    Int.tdiv n 5 = if 0 ≤ n then n / 5 else -((-n) / 5) := by
  by_cases h : 0 ≤ n
  · simp only [h, if_true]
    exact Int.tdiv_eq_ediv h (by decide)
  · simp only [h, if_false]
    have h1 : Int.tdiv (-n) 5 = (-n) / 5 := Int.tdiv_eq_ediv (by omega) (by decide)
    rw [← h1, Int.neg_tdiv, Int.neg_neg]

theorem smooth_int_isI16 (p c : Int) (hp : IsI16 p) (hc : IsI16 c) :
    IsI16 (smooth_int p c) := by
  unfold IsI16 at *
  unfold smooth_int
  rw [tdiv_five]
  split <;> omega

theorem toI16_of_isI16 (v : Int) (h : IsI16 v) : toI16 v = v := by
  unfold IsI16 at h
  unfold toI16
  omega

theorem smooth_eq_smooth_int (p c : Int) (hp : IsI16 p) (hc : IsI16 c) :
    smooth p c = smooth_int p c :=
  toI16_of_isI16 _ (smooth_int_isI16 p c hp hc)

theorem ceil_div_five (n : Int) : ⌈((n : Int) : ℚ) / 5⌉ = (n + 4) / 5 := by
  rw [Int.ceil_eq_iff]
  have h1 : 5 * ((n + 4) / 5) - 5 < n := by omega
  have h2 : n ≤ 5 * ((n + 4) / 5) := by omega
  have h1q : ((5 * ((n + 4) / 5) - 5 : Int) : ℚ) < (n : ℚ) := by exact_mod_cast h1
  have h2q : (n : ℚ) ≤ ((5 * ((n + 4) / 5) : Int) : ℚ) := by exact_mod_cast h2
  push_cast at h1q h2q
  constructor
  · rw [lt_div_iff₀ (by norm_num)]; linarith
  · rw [div_le_iff₀ (by norm_num)]; linarith



/-! ## Lemmas on `proccess_event` -/

theorem util_add_pressed_of_exists (r : List Nat) (vc : Nat)
    (h : util_key_exists r vc = true) : util_add_pressed r vc = r := by
  simp [util_add_pressed, h]

theorem util_remove_pressed_of_not_exists (r : List Nat) (vc : Nat)
    (h : ¬ util_key_exists r vc = true) : util_remove_pressed r vc = r := by
  simp [util_remove_pressed, h]

theorem proccess_event_key_pressed (K : Consts) (e : uiohook_event) (s : HookState)
    (hty : e.type = event_type.EVENT_KEY_PRESSED) :
    (proccess_event K e s).pressed_keys =
      util_add_pressed (wheel_preclear K s.pressed_keys) e.keyboard_keycode := by
  simp only [proccess_event, hty, wheel_preclear]
  split_ifs with h
  · rfl
  · simp only [Bool.not_eq_true', Bool.not_eq_false] at h
    exact (util_add_pressed_of_exists _ _ h).symm

theorem proccess_event_key_released (K : Consts) (e : uiohook_event) (s : HookState)
    (hty : e.type = event_type.EVENT_KEY_RELEASED) :
    (proccess_event K e s).pressed_keys =
      util_remove_pressed (wheel_preclear K s.pressed_keys) e.keyboard_keycode := by
  simp only [proccess_event, hty, wheel_preclear]
  split_ifs with h
  · rfl
  · exact (util_remove_pressed_of_not_exists _ _ h).symm

theorem proccess_event_mouse_pressed (K : Consts) (e : uiohook_event) (s : HookState)
    (hty : e.type = event_type.EVENT_MOUSE_PRESSED) :
    (proccess_event K e s).pressed_keys =
      util_add_pressed (wheel_preclear K s.pressed_keys) (mouse_to_vc K e.keyboard_keycode) := by
  simp only [proccess_event, hty, wheel_preclear]
  split_ifs with h
  · rfl
  · simp only [Bool.not_eq_true', Bool.not_eq_false] at h
    exact (util_add_pressed_of_exists _ _ h).symm

theorem proccess_event_mouse_released (K : Consts) (e : uiohook_event) (s : HookState)
    (hty : e.type = event_type.EVENT_MOUSE_RELEASED) :
    (proccess_event K e s).pressed_keys =
      util_remove_pressed (wheel_preclear K s.pressed_keys) (mouse_to_vc K e.mouse_button) := by
  simp only [proccess_event, hty, wheel_preclear]
  split_ifs with h
  · rfl
  · exact (util_remove_pressed_of_not_exists _ _ h).symm

theorem proccess_event_wheel (K : Consts) (e : uiohook_event) (s : HookState)
    (hty : e.type = event_type.EVENT_MOUSE_WHEEL) :
    (proccess_event K e s).pressed_keys =
      if e.wheel_rotation = K.WHEEL_UP then
        util_add_pressed (wheel_preclear K s.pressed_keys) (toU16 K.VC_MOUSE_WHEEL_UP)
      else if e.wheel_rotation = K.WHEEL_DOWN then
        util_add_pressed (wheel_preclear K s.pressed_keys) (toU16 K.VC_MOUSE_WHEEL_DOWN)
      else wheel_preclear K s.pressed_keys := by
  simp only [proccess_event, hty, wheel_preclear]
  split_ifs with h1 h2 h3 h4
  · rfl
  · simp only [Bool.not_eq_true', Bool.not_eq_false] at h2
    exact (util_add_pressed_of_exists _ _ h2).symm
  · rfl
  · simp only [Bool.not_eq_true', Bool.not_eq_false] at h4
    exact (util_add_pressed_of_exists _ _ h4).symm
  · rfl

theorem proccess_event_other (K : Consts) (e : uiohook_event) (s : HookState)
    (h1 : e.type ≠ event_type.EVENT_KEY_PRESSED) (h2 : e.type ≠ event_type.EVENT_KEY_RELEASED)
    (h3 : e.type ≠ event_type.EVENT_MOUSE_PRESSED)
    (h4 : e.type ≠ event_type.EVENT_MOUSE_RELEASED)
    (h5 : e.type ≠ event_type.EVENT_MOUSE_WHEEL) :
    (proccess_event K e s).pressed_keys = wheel_preclear K s.pressed_keys := by
  unfold proccess_event wheel_preclear
  cases hty : e.type <;> simp_all

theorem util_key_exists_add_of_ne (r : List Nat) (vc : Nat) {c : Nat} (hc0 : c ≠ 0)
    (hc : c ≠ vc) : util_key_exists (util_add_pressed r vc) c = util_key_exists r c := by
  rw [Bool.eq_iff_iff, util_key_exists_of_ne_zero _ hc0, util_key_exists_of_ne_zero _ hc0]
  exact mem_util_add_pressed_iff r vc hc0 hc

theorem util_key_exists_remove_of_ne (r : List Nat) (vc : Nat) {c : Nat} (hc0 : c ≠ 0)
    (hc : c ≠ vc) : util_key_exists (util_remove_pressed r vc) c = util_key_exists r c := by
  rw [Bool.eq_iff_iff, util_key_exists_of_ne_zero _ hc0, util_key_exists_of_ne_zero _ hc0]
  exact mem_util_remove_pressed_iff r vc hc0 hc

theorem util_key_exists_preclear_of_ne (K : Consts) (r : List Nat) {c : Nat} (hc0 : c ≠ 0)
    (hup : c ≠ toU16 K.VC_MOUSE_WHEEL_UP) (hdown : c ≠ toU16 K.VC_MOUSE_WHEEL_DOWN) :
    util_key_exists (wheel_preclear K r) c = util_key_exists r c := by
  unfold wheel_preclear
  rw [util_key_exists_remove_of_ne _ _ hc0 hdown, util_key_exists_remove_of_ne _ _ hc0 hup]

theorem util_key_exists_add_self (r : List Nat) {vc : Nat} (hvc : vc ≠ 0)
    (h : vc ∈ r ∨ 0 ∈ r) : util_key_exists (util_add_pressed r vc) vc = true := by
  rw [util_key_exists_of_ne_zero _ hvc]
  exact mem_util_add_pressed_self r hvc h

theorem util_key_exists_remove_self (r : List Nat) {vc : Nat} (hvc : vc ≠ 0)
    (hnd : NoDupKeys r) : util_key_exists (util_remove_pressed r vc) vc = false := by
  rw [← Bool.not_eq_true, util_key_exists_of_ne_zero _ hvc]
  exact not_mem_util_remove_pressed r hvc hnd

theorem mem_remove_scan_sub (vc : Nat) (r : List Nat) {x : Nat}
    (h : x ∈ remove_scan vc r) : x = 0 ∨ x ∈ r := by
  induction r with
  | nil => simp [remove_scan] at h
  | cons k rest ih =>
    by_cases hk : k = vc
    · simp only [remove_scan, hk, if_true, List.mem_cons, VC_UNDEFINED] at h
      rcases h with h | h
      · exact Or.inl h
      · exact Or.inr (List.mem_cons_of_mem _ h)
    · simp only [remove_scan, hk, if_false, List.mem_cons] at h
      rcases h with h | h
      · exact Or.inr (by simp [h])
      · rcases ih h with h | h
        · exact Or.inl h
        · exact Or.inr (List.mem_cons_of_mem _ h)

theorem mem_util_remove_pressed_sub (r : List Nat) (vc : Nat) {x : Nat}
    (h : x ∈ util_remove_pressed r vc) : x = 0 ∨ x ∈ r := by
  unfold util_remove_pressed at h
  split at h
  · exact mem_remove_scan_sub vc r h
  · exact Or.inr h

theorem noDupKeys_wheel_preclear (K : Consts) (r : List Nat) (hnd : NoDupKeys r) :
    NoDupKeys (wheel_preclear K r) :=
  noDupKeys_remove _ _ (noDupKeys_remove _ _ hnd)

theorem not_mem_wheel_preclear_up (K : Consts) (r : List Nat) (hnd : NoDupKeys r)
    (hup : toU16 K.VC_MOUSE_WHEEL_UP ≠ 0) : toU16 K.VC_MOUSE_WHEEL_UP ∉ wheel_preclear K r := by
  intro h
  rcases mem_util_remove_pressed_sub _ _ h with h0 | h1
  · exact hup h0
  · exact not_mem_util_remove_pressed r hup hnd h1

theorem not_mem_wheel_preclear_down (K : Consts) (r : List Nat) (hnd : NoDupKeys r)
    (hdown : toU16 K.VC_MOUSE_WHEEL_DOWN ≠ 0) :
    toU16 K.VC_MOUSE_WHEEL_DOWN ∉ wheel_preclear K r :=
  not_mem_util_remove_pressed _ hdown (noDupKeys_remove _ _ hnd)

theorem not_mem_util_add_pressed_of_ne (r : List Nat) (vc : Nat) {c : Nat} (hc0 : c ≠ 0)
    (hc : c ≠ vc) (h : c ∉ r) : c ∉ util_add_pressed r vc :=
  fun hm => h ((mem_util_add_pressed_iff r vc hc0 hc).1 hm)

theorem not_mem_util_remove_pressed_of_not_mem (r : List Nat) (vc : Nat) {c : Nat}
    (hc0 : c ≠ 0) (h : c ∉ r) : c ∉ util_remove_pressed r vc := by
  intro hm
  rcases mem_util_remove_pressed_sub r vc hm with h0 | h1
  · exact hc0 h0
  · exact h h1

theorem util_key_exists_eq_false_of_not_mem (r : List Nat) {c : Nat} (h : c ∉ r) :
    util_key_exists r c = false := by
  rw [← Bool.not_eq_true, util_key_exists_eq_true]
  exact fun hm => h hm.1

theorem count_le_one_of_noDupKeys (r : List Nat) {c : Nat} (hc0 : c ≠ 0)
    (hnd : NoDupKeys r) : r.count c ≤ 1 := by
  unfold NoDupKeys at hnd
  have h1 := List.nodup_iff_count_le_one.1 hnd c
  rwa [List.count_filter (by simpa [VC_UNDEFINED] using hc0)] at h1

theorem run_events_snoc (K : Consts) (es : List uiohook_event) (e : uiohook_event)
    (s : HookState) : run_events K (es ++ [e]) s = proccess_event K e (run_events K es s) := by
  simp [run_events, List.foldl_append]

theorem noDupKeys_run_events (K : Consts) (es : List uiohook_event) (s : HookState)
    (hnd : NoDupKeys s.pressed_keys) : NoDupKeys (run_events K es s).pressed_keys := by
  induction es generalizing s with
  | nil => exact hnd
  | cons e rest ih =>
    have : run_events K (e :: rest) s = run_events K rest (proccess_event K e s) := rfl
    rw [this]
    exact ih _ (noDupKeys_proccess_event K e s hnd)

/-! ## Lemmas on the number of differing slots -/

theorem differing_slots_self (r : List Nat) : differing_slots r r = 0 := by
  induction r with
  | nil => rfl
  | cons k rest ih => simp [differing_slots, ih]

theorem differing_slots_add_scan (vc : Nat) (r : List Nat) :
    differing_slots r (add_scan vc r) ≤ 1 := by
  induction r with
  | nil => simp [add_scan, differing_slots]
  | cons k rest ih =>
    by_cases hk : k = 0
    · simp only [add_scan, hk, if_true, differing_slots, differing_slots_self]
      split <;> omega
    · simp only [add_scan, hk, if_false, differing_slots, if_true]
      omega

theorem differing_slots_remove_scan (vc : Nat) (r : List Nat) :
    differing_slots r (remove_scan vc r) ≤ 1 := by
  induction r with
  | nil => simp [remove_scan, differing_slots]
  | cons k rest ih =>
    by_cases hk : k = vc
    · simp only [remove_scan, hk, if_true, differing_slots, differing_slots_self]
      split <;> omega
    · simp only [remove_scan, hk, if_false, differing_slots, if_true]
      omega

theorem differing_slots_add (r : List Nat) (vc : Nat) :
    differing_slots r (util_add_pressed r vc) ≤ 1 := by
  unfold util_add_pressed
  split
  · exact differing_slots_add_scan vc r
  · simp [differing_slots_self]

theorem differing_slots_remove (r : List Nat) (vc : Nat) :
    differing_slots r (util_remove_pressed r vc) ≤ 1 := by
  unfold util_remove_pressed
  split
  · exact differing_slots_remove_scan vc r
  · simp [differing_slots_self]

theorem differing_slots_triangle (a b c : List Nat) (hab : a.length = b.length) :
    differing_slots a c ≤ differing_slots a b + differing_slots b c := by
  induction a generalizing b c with
  | nil => simp [differing_slots]
  | cons x a ih =>
    cases b with
    | nil => simp at hab
    | cons y b =>
      cases c with
      | nil => simp [differing_slots]
      | cons z c =>
        have hlen : a.length = b.length := by simpa using hab
        have := ih b c hlen
        simp only [differing_slots]
        by_cases hxy : x = y <;> by_cases hyz : y = z <;> by_cases hxz : x = z <;>
          simp only [hxy, hyz, hxz, if_true, if_false] <;> omega

theorem differing_slots_after_preclear (K : Consts) (e : uiohook_event) (s : HookState) :
    differing_slots (wheel_preclear K s.pressed_keys) (proccess_event K e s).pressed_keys ≤ 1 := by
  by_cases h1 : e.type = event_type.EVENT_KEY_PRESSED
  · rw [proccess_event_key_pressed K e s h1]; exact differing_slots_add _ _
  by_cases h2 : e.type = event_type.EVENT_KEY_RELEASED
  · rw [proccess_event_key_released K e s h2]; exact differing_slots_remove _ _
  by_cases h3 : e.type = event_type.EVENT_MOUSE_PRESSED
  · rw [proccess_event_mouse_pressed K e s h3]; exact differing_slots_add _ _
  by_cases h4 : e.type = event_type.EVENT_MOUSE_RELEASED
  · rw [proccess_event_mouse_released K e s h4]; exact differing_slots_remove _ _
  by_cases h5 : e.type = event_type.EVENT_MOUSE_WHEEL
  · rw [proccess_event_wheel K e s h5]
    split_ifs
    · exact differing_slots_add _ _
    · exact differing_slots_add _ _
    · simp [differing_slots_self]
  · rw [proccess_event_other K e s h1 h2 h3 h4 h5]
    simp [differing_slots_self]

theorem differing_slots_preclear (K : Consts) (r : List Nat) :
    differing_slots r (wheel_preclear K r) ≤ 2 := by
  unfold wheel_preclear
  have h1 := differing_slots_remove r (toU16 K.VC_MOUSE_WHEEL_UP)
  have h2 := differing_slots_remove (util_remove_pressed r (toU16 K.VC_MOUSE_WHEEL_UP))
    (toU16 K.VC_MOUSE_WHEEL_DOWN)
  have h3 := differing_slots_triangle r (util_remove_pressed r (toU16 K.VC_MOUSE_WHEEL_UP))
    (util_remove_pressed (util_remove_pressed r (toU16 K.VC_MOUSE_WHEEL_UP))
      (toU16 K.VC_MOUSE_WHEEL_DOWN)) (util_remove_pressed_length _ _).symm
  omega

theorem wheel_preclear_length (K : Consts) (r : List Nat) :
    (wheel_preclear K r).length = r.length := by
  unfold wheel_preclear
  rw [util_remove_pressed_length, util_remove_pressed_length]

/-! ## Lemmas on the cleared registry -/

theorem util_key_exists_clear (r : List Nat) (vc : Nat) :
    util_key_exists (util_clear_pressed r) vc = false := by
  have h : util_pressed_empty (util_clear_pressed r) = true := by
    rw [util_pressed_empty_eq_true, util_clear_pressed_eq_replicate]
    intro x hx
    exact (List.mem_replicate.1 hx).2
  simp [util_key_exists, h]

theorem mem_util_clear_pressed (r : List Nat) {x : Nat} (hx : x ∈ util_clear_pressed r) :
    x = VC_UNDEFINED := by
  rw [util_clear_pressed_eq_replicate] at hx
  exact (List.mem_replicate.1 hx).2

/-! ## Lemmas on the loops of `check_keys` -/

theorem util_key_exists_of_pressed_empty (r : List Nat) (vc : Nat)
    (h : util_pressed_empty r = true) : util_key_exists r vc = false := by
  simp [util_key_exists, h]

theorem reset_pressed_loop_spec (n : Nat) (keys : List InputKey) (hn : n ≤ keys.length) :
    ∃ ks, reset_pressed_loop n keys = some ks ∧
      (∀ i k, i < n → keys[i]? = some k → ks[i]? = some { k with m_pressed := false }) ∧
      ∀ i, n ≤ i → ks[i]? = keys[i]? := by
  induction n generalizing keys with
  | zero =>
    exact ⟨keys, rfl, fun i k hi _ => absurd hi (Nat.not_lt_zero i), fun _ _ => rfl⟩
  | succ n ih =>
    cases keys with
    | nil => simp at hn
    | cons k0 rest =>
      obtain ⟨ks, hks, hlt, hge⟩ := ih rest (by simpa using hn)
      refine ⟨{ k0 with m_pressed := false } :: ks, by simp [reset_pressed_loop, hks], ?_, ?_⟩
      · intro i k hi hk
        cases i with
        | zero =>
          simp only [List.getElem?_cons_zero, Option.some.injEq] at hk ⊢
          rw [hk]
        | succ i =>
          simp only [List.getElem?_cons_succ] at hk ⊢
          exact hlt i k (by omega) hk
      · intro i hi
        cases i with
        | zero => omega
        | succ i =>
          simp only [List.getElem?_cons_succ]
          exact hge i (by omega)

theorem mark_pressed_loop_spec (r : List Nat) (n : Nat) (keys : List InputKey)
    (hn : n ≤ keys.length) :
    ∃ ks, mark_pressed_loop r n keys = some ks ∧
      (∀ i k, i < n → keys[i]? = some k →
        ks[i]? = some (if util_key_exists r k.m_key_code then { k with m_pressed := true }
          else k)) ∧
      ∀ i, n ≤ i → ks[i]? = keys[i]? := by
  induction n generalizing keys with
  | zero =>
    exact ⟨keys, rfl, fun i k hi _ => absurd hi (Nat.not_lt_zero i), fun _ _ => rfl⟩
  | succ n ih =>
    cases keys with
    | nil => simp at hn
    | cons k0 rest =>
      obtain ⟨ks, hks, hlt, hge⟩ := ih rest (by simpa using hn)
      refine ⟨(if util_key_exists r k0.m_key_code then { k0 with m_pressed := true }
        else k0) :: ks, by simp [mark_pressed_loop, hks], ?_, ?_⟩
      · intro i k hi hk
        cases i with
        | zero =>
          simp only [List.getElem?_cons_zero, Option.some.injEq] at hk ⊢
          rw [hk]
        | succ i =>
          simp only [List.getElem?_cons_succ] at hk ⊢
          exact hlt i k (by omega) hk
      · intro i hi
        cases i with
        | zero => omega
        | succ i =>
          simp only [List.getElem?_cons_succ]
          exact hge i (by omega)

theorem reset_pressed_loop_length (n : Nat) (keys ks : List InputKey)
    (h : reset_pressed_loop n keys = some ks) : ks.length = keys.length := by
  induction n generalizing keys ks with
  | zero =>
    simp only [reset_pressed_loop, Option.some.injEq] at h
    rw [h]
  | succ n ih =>
    cases keys with
    | nil => simp [reset_pressed_loop] at h
    | cons k0 rest =>
      simp only [reset_pressed_loop] at h
      cases hr : reset_pressed_loop n rest with
      | none => simp [hr] at h
      | some rest1 =>
        simp only [hr, Option.some.injEq] at h
        rw [← h]
        simp [ih rest rest1 hr]

/-- The keys left by `check_keys` on a loaded keyboard or mouse layout whose
`m_key_count` does not exceed the number of keys. -/
theorem check_keys_loaded_spec (G : List InputKey → List InputKey) (r : List Nat)
    (self : InputSource) (hl : self.m_layout.m_is_loaded = true)
    (hty : self.m_layout.m_type = LayoutType.TYPE_KEYBOARD ∨
      self.m_layout.m_type = LayoutType.TYPE_MOUSE)
    (hn : self.m_layout.m_key_count ≤ self.m_layout.m_keys.length) :
    ∃ ks, InputSource.check_keys G r self =
        some { self with m_layout := { self.m_layout with m_keys := ks } } ∧
      ∀ (i : Nat) (k : InputKey), (i : Int) < self.m_layout.m_key_count →
        self.m_layout.m_keys[i]? = some k →
        ks[i]? = some { m_key_code := k.m_key_code,
                        m_pressed := util_key_exists r k.m_key_code } := by
  have hn1 : self.m_layout.m_key_count.toNat ≤ self.m_layout.m_keys.length := by omega
  obtain ⟨ks1, h1, h1lt, _⟩ := reset_pressed_loop_spec _ _ hn1
  have hlen1 := reset_pressed_loop_length _ _ _ h1
  cases he : util_pressed_empty r with
  | true =>
    refine ⟨ks1, by simp [InputSource.check_keys, hl, hty, h1, he], ?_⟩
    intro i k hi hk
    rw [h1lt i k (by omega) hk, util_key_exists_of_pressed_empty r _ he]
  | false =>
    obtain ⟨ks2, h2, h2lt, _⟩ :=
      mark_pressed_loop_spec r self.m_layout.m_key_count.toNat ks1 (by omega)
    refine ⟨ks2, by simp [InputSource.check_keys, hl, hty, h1, he, h2], ?_⟩
    intro i k hi hk
    rw [h2lt i _ (by omega) (h1lt i k (by omega) hk)]
    cases util_key_exists r k.m_key_code <;> simp

/-! ## Lemmas on the start handshake -/

theorem hook_enable_thread_not_created (K : Consts) (C : StatusCodes) (t : Bool) (c g : Int) :
    hook_enable { K with WINDOWS := true } C ⟨false, t, c, g⟩ = none ∧
      hook_enable { K with WINDOWS := false } C ⟨false, t, c, g⟩ =
        some { status := -1, joined := false } :=
  ⟨rfl, rfl⟩

/-! ## The registry operations -/

/-- C1, counterexample: on a registry whose four slots are all empty the scan
finds `VC_UNDEFINED` in a slot, yet `util_key_exists` answers false for it, the
early return on `util_pressed_empty` having changed the answer. -/
theorem util_key_exists_undefined_on_empty :
    VC_UNDEFINED ∈ [0, 0, 0, 0] ∧ key_scan VC_UNDEFINED [0, 0, 0, 0] = true ∧
      util_key_exists [0, 0, 0, 0] VC_UNDEFINED = false := by
  decide

/-- C1, as amended: for every registry state and every code `vc`, except for
`vc = VC_UNDEFINED` on a registry with every slot empty, `util_key_exists`
returns true exactly when some slot holds `vc`, and returns what the plain
linear scan returns. -/
theorem util_key_exists_iff_mem (r : List Nat) (vc : Nat)
    (h : vc ≠ VC_UNDEFINED ∨ util_pressed_empty r = false) :
    (util_key_exists r vc = true ↔ vc ∈ r) ∧ util_key_exists r vc = key_scan vc r := by
  have hne : vc ∈ r → ∃ x ∈ r, x ≠ 0 := by
    intro hm
    rcases h with h | h
    · exact ⟨vc, hm, h⟩
    · exact (util_pressed_empty_eq_false r).1 h
  have h1 : util_key_exists r vc = true ↔ vc ∈ r := by
    rw [util_key_exists_eq_true]
    exact ⟨fun h => h.1, fun h => ⟨h, hne h⟩⟩
  refine ⟨h1, ?_⟩
  rw [Bool.eq_iff_iff, h1, key_scan_eq_true]

/-- C1, witness: a registry holding code 5 in its first slot. -/
theorem util_key_exists_iff_mem_witness :
    (5 ≠ VC_UNDEFINED ∨ util_pressed_empty [5, 0, 0, 0] = false) ∧
      ((util_key_exists [5, 0, 0, 0] 5 = true ↔ 5 ∈ [5, 0, 0, 0]) ∧
        util_key_exists [5, 0, 0, 0] 5 = key_scan 5 [5, 0, 0, 0]) :=
  ⟨Or.inl (by decide), util_key_exists_iff_mem [5, 0, 0, 0] 5 (Or.inl (by decide))⟩

/-- C2, counterexample: on the registry `[0, 6]` code 5 is absent and a slot is
free; adding 5 fills the last empty slot, after which no slot holds the other
code `VC_UNDEFINED` and `util_key_exists` has changed from true to false for it.
And on the all-empty registry `[0, 0]`, where `util_key_exists` is false for
`VC_UNDEFINED`, it is still false after adding `VC_UNDEFINED`. -/
theorem util_add_pressed_changes_undefined :
    (VC_UNDEFINED ∈ [0, 6] ∧ util_key_exists [0, 6] 5 = false ∧ 5 ∉ [0, 6] ∧
        VC_UNDEFINED ≠ 5 ∧ util_add_pressed [0, 6] 5 = [5, 6] ∧
        util_key_exists [0, 6] VC_UNDEFINED = true ∧
        util_key_exists (util_add_pressed [0, 6] 5) VC_UNDEFINED = false ∧
        VC_UNDEFINED ∉ util_add_pressed [0, 6] 5) ∧
      (VC_UNDEFINED ∈ [0, 0] ∧ util_key_exists [0, 0] VC_UNDEFINED = false ∧
        util_key_exists (util_add_pressed [0, 0] VC_UNDEFINED) VC_UNDEFINED = false) := by
  decide

/-- C2, as amended: for every registry state with an empty slot and every code
`vc` other than `VC_UNDEFINED` that is not present, `util_add_pressed` writes
`vc` into the lowest-index empty slot and leaves every other slot unchanged;
afterwards `util_key_exists` is true for `vc` and unchanged for every other code
except `VC_UNDEFINED`. -/
theorem util_add_pressed_free_slot (r : List Nat) (vc : Nat)
    (hfree : VC_UNDEFINED ∈ r) (hvc : vc ≠ VC_UNDEFINED)
    (habs : util_key_exists r vc = false) :
    ∃ i, r[i]? = some VC_UNDEFINED ∧ (∀ j, j < i → r[j]? ≠ some VC_UNDEFINED) ∧
      util_add_pressed r vc = r.set i vc ∧
      util_key_exists (util_add_pressed r vc) vc = true ∧
      ∀ c, c ≠ vc → c ≠ VC_UNDEFINED →
        util_key_exists (util_add_pressed r vc) c = util_key_exists r c := by
  have hadd : util_add_pressed r vc = add_scan vc r := by simp [util_add_pressed, habs]
  obtain ⟨i, hi, hlt, hset⟩ := add_scan_eq_set vc r hfree
  refine ⟨i, hi, hlt, by rw [hadd, hset], ?_, ?_⟩
  · rw [hadd, util_key_exists_of_ne_zero _ hvc]
    exact mem_add_scan vc r hfree
  · intro c hc hc0
    rw [hadd, Bool.eq_iff_iff, util_key_exists_of_ne_zero _ hc0,
      util_key_exists_of_ne_zero _ hc0]
    exact mem_add_scan_iff vc r hc0 hc

/-- C2, witness: adding code 7 to `[5, 0, 6, 0]` fills slot 1. -/
theorem util_add_pressed_free_slot_witness :
    VC_UNDEFINED ∈ [5, 0, 6, 0] ∧ 7 ≠ VC_UNDEFINED ∧ util_key_exists [5, 0, 6, 0] 7 = false ∧
      ∃ i, [5, 0, 6, 0][i]? = some VC_UNDEFINED ∧
        (∀ j, j < i → [5, 0, 6, 0][j]? ≠ some VC_UNDEFINED) ∧
        util_add_pressed [5, 0, 6, 0] 7 = [5, 0, 6, 0].set i 7 ∧
        util_key_exists (util_add_pressed [5, 0, 6, 0] 7) 7 = true ∧
        ∀ c, c ≠ 7 → c ≠ VC_UNDEFINED →
          util_key_exists (util_add_pressed [5, 0, 6, 0] 7) c = util_key_exists [5, 0, 6, 0] c :=
  ⟨by decide, by decide, by decide,
    util_add_pressed_free_slot [5, 0, 6, 0] 7 (by decide) (by decide) (by decide)⟩

/-- C3: for every registry state in which all `MAX_SIMULTANEOUS_KEYS` slots are
occupied and every code `vc`, `util_add_pressed` leaves every slot unchanged. -/
theorem util_add_pressed_full (K : Consts) (r : List Nat) (vc : Nat)
    (hfull : r.length = K.MAX_SIMULTANEOUS_KEYS ∧ ∀ k ∈ r, k ≠ VC_UNDEFINED) :
    util_add_pressed r vc = r := by
  have h0 : (0 : Nat) ∉ r := fun h => hfull.2 0 h rfl
  unfold util_add_pressed
  split
  · exact add_scan_of_not_mem vc r h0
  · rfl

/-- C3, witness: a full registry of three slots. -/
theorem util_add_pressed_full_witness :
    ([5, 6, 7].length = 3 ∧ ∀ k ∈ [5, 6, 7], k ≠ VC_UNDEFINED) ∧
      util_add_pressed [5, 6, 7] 9 = [5, 6, 7] :=
  ⟨by decide, util_add_pressed_full ⟨3, 60672, 60689, 60690, -1, 1, false⟩ [5, 6, 7] 9
    (by decide)⟩

/-- C4, counterexample: on the duplicate-free registry `[5, 0]` the code
`VC_UNDEFINED` is present, and it is still present after `util_remove_pressed`;
and removing 5 from the full registry `[5, 6]` puts the other code
`VC_UNDEFINED` into a slot, `util_key_exists` changing from false to true for
it. -/
theorem util_remove_pressed_undefined :
    (NoDupKeys [5, 0] ∧ VC_UNDEFINED ∈ [5, 0] ∧ util_key_exists [5, 0] VC_UNDEFINED = true ∧
        util_remove_pressed [5, 0] VC_UNDEFINED = [5, 0] ∧
        util_key_exists (util_remove_pressed [5, 0] VC_UNDEFINED) VC_UNDEFINED = true) ∧
      (NoDupKeys [5, 6] ∧ util_key_exists [5, 6] 5 = true ∧ VC_UNDEFINED ≠ 5 ∧
        util_remove_pressed [5, 6] 5 = [0, 6] ∧
        VC_UNDEFINED ∉ [5, 6] ∧ util_key_exists [5, 6] VC_UNDEFINED = false ∧
        VC_UNDEFINED ∈ util_remove_pressed [5, 6] 5 ∧
        util_key_exists (util_remove_pressed [5, 6] 5) VC_UNDEFINED = true) := by
  decide

/-- C4, as amended: for every registry state and every code `vc` other than
`VC_UNDEFINED` that is present, `util_remove_pressed` resets the lowest-index
slot holding `vc` to `VC_UNDEFINED` and leaves every other slot unchanged;
`util_key_exists` is unchanged for every other code except `VC_UNDEFINED`, and
when the registry holds no duplicates it is false for `vc` afterwards. -/
theorem util_remove_pressed_present (r : List Nat) (vc : Nat)
    (hvc : vc ≠ VC_UNDEFINED) (hpres : util_key_exists r vc = true) :
    ∃ i, r[i]? = some vc ∧ (∀ j, j < i → r[j]? ≠ some vc) ∧
      util_remove_pressed r vc = r.set i VC_UNDEFINED ∧
      (NoDupKeys r → util_key_exists (util_remove_pressed r vc) vc = false) ∧
      ∀ c, c ≠ vc → c ≠ VC_UNDEFINED →
        util_key_exists (util_remove_pressed r vc) c = util_key_exists r c := by
  have hrem : util_remove_pressed r vc = remove_scan vc r := by
    simp [util_remove_pressed, hpres]
  have hmem : vc ∈ r := (util_key_exists_of_ne_zero r hvc).1 hpres
  obtain ⟨i, hi, hlt, hset⟩ := remove_scan_eq_set vc r hmem
  refine ⟨i, hi, hlt, by rw [hrem, hset], ?_, ?_⟩
  · intro hnd
    rw [hrem, ← Bool.not_eq_true, util_key_exists_of_ne_zero _ hvc]
    exact not_mem_remove_scan vc r hvc hnd
  · intro c hc hc0
    rw [hrem, Bool.eq_iff_iff, util_key_exists_of_ne_zero _ hc0,
      util_key_exists_of_ne_zero _ hc0]
    exact mem_remove_scan_iff vc r hc0 hc

/-- C4, witness: removing code 6 from `[5, 6, 0, 7]` empties slot 1. -/
theorem util_remove_pressed_present_witness :
    6 ≠ VC_UNDEFINED ∧ util_key_exists [5, 6, 0, 7] 6 = true ∧ NoDupKeys [5, 6, 0, 7] ∧
      ∃ i, [5, 6, 0, 7][i]? = some 6 ∧ (∀ j, j < i → [5, 6, 0, 7][j]? ≠ some 6) ∧
        util_remove_pressed [5, 6, 0, 7] 6 = [5, 6, 0, 7].set i VC_UNDEFINED ∧
        (NoDupKeys [5, 6, 0, 7] →
          util_key_exists (util_remove_pressed [5, 6, 0, 7] 6) 6 = false) ∧
        ∀ c, c ≠ 6 → c ≠ VC_UNDEFINED →
          util_key_exists (util_remove_pressed [5, 6, 0, 7] 6) c =
            util_key_exists [5, 6, 0, 7] c :=
  ⟨by decide, by decide, by decide,
    util_remove_pressed_present [5, 6, 0, 7] 6 (by decide) (by decide)⟩

/-- C5: for every registry state and every code `vc` for which
`util_key_exists` is false, `util_remove_pressed` leaves every slot unchanged. -/
theorem util_remove_pressed_absent (r : List Nat) (vc : Nat)
    (habs : util_key_exists r vc = false) : util_remove_pressed r vc = r := by
  simp [util_remove_pressed, habs]

/-- C5, witness: removing the absent code 9 from `[5, 6, 0, 7]`. -/
theorem util_remove_pressed_absent_witness :
    util_key_exists [5, 6, 0, 7] 9 = false ∧ util_remove_pressed [5, 6, 0, 7] 9 = [5, 6, 0, 7] :=
  ⟨by decide, util_remove_pressed_absent [5, 6, 0, 7] 9 (by decide)⟩

/-- C6: adding is idempotent. For every registry state and every code `vc`, two
calls of `util_add_pressed` leave the registry that one call leaves; and when
`vc` is present after the first call, it is present after the second and the
number of occupied slots is the same. -/
theorem util_add_pressed_idempotent (r : List Nat) (vc : Nat) :
    util_add_pressed (util_add_pressed r vc) vc = util_add_pressed r vc ∧
      (util_key_exists (util_add_pressed r vc) vc = true →
        util_key_exists (util_add_pressed (util_add_pressed r vc) vc) vc = true ∧
          occupied (util_add_pressed (util_add_pressed r vc) vc) =
            occupied (util_add_pressed r vc)) := by
  have key : util_add_pressed (util_add_pressed r vc) vc = util_add_pressed r vc := by
    cases he : util_key_exists r vc with
    | true =>
      have h1 : util_add_pressed r vc = r := by simp [util_add_pressed, he]
      rw [h1, h1]
    | false =>
      have h1 : util_add_pressed r vc = add_scan vc r := by simp [util_add_pressed, he]
      by_cases hvc : vc = 0
      · have h2 : util_add_pressed r vc = r := by rw [h1, hvc, add_scan_zero]
        rw [h2, h2]
      · by_cases h0 : (0 : Nat) ∈ r
        · have h3 : util_key_exists (util_add_pressed r vc) vc = true := by
            rw [h1, util_key_exists_of_ne_zero _ hvc]
            exact mem_add_scan vc r h0
          generalize util_add_pressed r vc = r1 at h3 ⊢
          simp [util_add_pressed, h3]
        · have h2 : util_add_pressed r vc = r := by rw [h1, add_scan_of_not_mem vc r h0]
          rw [h2, h2]
  refine ⟨key, fun h => ?_⟩
  rw [key]
  exact ⟨h, rfl⟩

/-- C6, witness: code 7 added twice to `[5, 0, 0]`. -/
theorem util_add_pressed_idempotent_witness :
    util_key_exists (util_add_pressed [5, 0, 0] 7) 7 = true ∧
      util_key_exists (util_add_pressed (util_add_pressed [5, 0, 0] 7) 7) 7 = true ∧
      occupied (util_add_pressed (util_add_pressed [5, 0, 0] 7) 7) =
        occupied (util_add_pressed [5, 0, 0] 7) :=
  ⟨by decide, (util_add_pressed_idempotent [5, 0, 0] 7).2 (by decide)⟩

/-- C7: the absence of duplicates among the occupied slots is an invariant. It
holds after `util_clear_pressed`, and from every registry state where it holds
it still holds after `util_add_pressed`, after `util_remove_pressed` and after
`proccess_event`, for every code and every event. -/
theorem noDupKeys_is_invariant (K : Consts) :
    (∀ r, NoDupKeys (util_clear_pressed r)) ∧
      (∀ r vc, NoDupKeys r → NoDupKeys (util_add_pressed r vc)) ∧
      (∀ r vc, NoDupKeys r → NoDupKeys (util_remove_pressed r vc)) ∧
      (∀ e s, NoDupKeys s.pressed_keys → NoDupKeys (proccess_event K e s).pressed_keys) :=
  ⟨noDupKeys_clear, noDupKeys_add, noDupKeys_remove, noDupKeys_proccess_event K⟩

/-- C7, witness: a key-press event for code 6 on the duplicate-free registry
`[5, 0, 0]`. -/
theorem noDupKeys_is_invariant_witness :
    NoDupKeys [5, 0, 0] ∧
      NoDupKeys (proccess_event ⟨3, 60672, 60689, 60690, -1, 1, false⟩
        ⟨.EVENT_KEY_PRESSED, 6, 0, 0, 0, 0⟩ ⟨[5, 0, 0], 0, 0, 0, 0, 0, 0⟩).pressed_keys :=
  ⟨by decide, (noDupKeys_is_invariant _).2.2.2 _ _ (by decide)⟩

/-! ## Sequences of calls -/

/-- C8, counterexample: on a cleared registry of two slots the calls add 1,
add 2, add 3 end with an add of code 3, and `util_key_exists` is false for 3,
the third add having found no empty slot. And after the single call add
`VC_UNDEFINED`, `util_key_exists` is false for `VC_UNDEFINED`. -/
theorem run_ops_overflow_drops_add :
    (last_op_on 3 [RegOp.add 1, RegOp.add 2, RegOp.add 3] = some (RegOp.add 3) ∧
        run_ops (util_clear_pressed [0, 0]) [RegOp.add 1, RegOp.add 2, RegOp.add 3] = [1, 2] ∧
        util_key_exists
          (run_ops (util_clear_pressed [0, 0]) [RegOp.add 1, RegOp.add 2, RegOp.add 3]) 3 =
          false) ∧
      (last_op_on VC_UNDEFINED [RegOp.add VC_UNDEFINED] = some (RegOp.add VC_UNDEFINED) ∧
        util_key_exists (run_ops (util_clear_pressed [0, 0]) [RegOp.add VC_UNDEFINED])
          VC_UNDEFINED = false) := by
  decide

/-- C8, as amended: for every finite sequence of `util_add_pressed` and
`util_remove_pressed` calls applied to a cleared registry, the number of
occupied slots never exceeds `MAX_SIMULTANEOUS_KEYS` at any point; and when at
every point the codes whose last call so far was an add number at most
`MAX_SIMULTANEOUS_KEYS`, then for every code `c` other than `VC_UNDEFINED`,
`util_key_exists` is true for `c` after the sequence exactly when the last call
on `c` was an add. -/
theorem run_ops_net_effect (K : Consts) (r0 : List Nat) (ops : List RegOp)
    (h0 : r0.length = K.MAX_SIMULTANEOUS_KEYS) :
    (∀ n, occupied (run_ops (util_clear_pressed r0) (ops.take n)) ≤ K.MAX_SIMULTANEOUS_KEYS) ∧
      ((∀ n, (held_codes (ops.take n)).length ≤ K.MAX_SIMULTANEOUS_KEYS) →
        ∀ c, c ≠ VC_UNDEFINED →
          (util_key_exists (run_ops (util_clear_pressed r0) ops) c = true ↔
            last_op_on c ops = some (RegOp.add c))) := by
  constructor
  · intro n
    have h := occupied_le_length (run_ops (util_clear_pressed r0) (ops.take n))
    rw [run_ops_length, util_clear_pressed_length, h0] at h
    exact h
  · intro hcap c hc
    rw [util_clear_pressed_eq_replicate, h0, util_key_exists_of_ne_zero _ hc]
    exact (run_ops_mirror K.MAX_SIMULTANEOUS_KEYS ops hcap).2.2 c hc

/-- C8, witness: the calls add 1, add 2, remove 1, add 3 on a registry of two
slots, where at most two codes are held at any point. -/
theorem run_ops_net_effect_witness :
    [7, 8].length = 2 ∧
      (∀ n, (held_codes
        ([RegOp.add 1, RegOp.add 2, RegOp.remove 1, RegOp.add 3].take n)).length ≤ 2) ∧
      ∀ c, c ≠ VC_UNDEFINED →
        (util_key_exists (run_ops (util_clear_pressed [7, 8])
            [RegOp.add 1, RegOp.add 2, RegOp.remove 1, RegOp.add 3]) c = true ↔
          last_op_on c [RegOp.add 1, RegOp.add 2, RegOp.remove 1, RegOp.add 3] =
            some (RegOp.add c)) :=
  have hcap : ∀ n, (held_codes
      ([RegOp.add 1, RegOp.add 2, RegOp.remove 1, RegOp.add 3].take n)).length ≤ 2 := by
    intro n
    rcases n with _ | _ | _ | _ | n
    · decide
    · decide
    · decide
    · decide
    · simp only [List.take_succ_cons, List.take_nil]
      decide
  ⟨rfl, hcap,
    (run_ops_net_effect ⟨2, 60672, 60689, 60690, -1, 1, false⟩ [7, 8]
      [RegOp.add 1, RegOp.add 2, RegOp.remove 1, RegOp.add 3] rfl).2 hcap⟩

/-! ## Mouse smoothing -/

/-- C9: for every mouse state and every motion or drag event carrying position
`(x, y)`, `proccess_event` sets previous to the old current, current to
`(x, y)`, and each smoothed coordinate to `(previous * 4 + current + 4) / 5` with
the integer division of C; for previous `(0, 0)` and current `(10, 10)` the
smoothed position is `(2, 2)`. -/
theorem proccess_event_motion (K : Consts) (e : uiohook_event) (s : HookState)
    (hty : e.type = event_type.EVENT_MOUSE_MOVED ∨ e.type = event_type.EVENT_MOUSE_DRAGGED)
    (hx : IsI16 s.mouse_x) (hy : IsI16 s.mouse_y)
    (hex : IsI16 e.mouse_x) (hey : IsI16 e.mouse_y) :
    (proccess_event K e s).mouse_last_x = s.mouse_x ∧
      (proccess_event K e s).mouse_last_y = s.mouse_y ∧
      (proccess_event K e s).mouse_x = e.mouse_x ∧
      (proccess_event K e s).mouse_y = e.mouse_y ∧
      (proccess_event K e s).mouse_x_smooth =
        Int.tdiv ((proccess_event K e s).mouse_last_x * 4 + (proccess_event K e s).mouse_x + 4) 5 ∧
      (proccess_event K e s).mouse_y_smooth =
        Int.tdiv ((proccess_event K e s).mouse_last_y * 4 + (proccess_event K e s).mouse_y + 4) 5 ∧
      (s.mouse_x = 0 → s.mouse_y = 0 → e.mouse_x = 10 → e.mouse_y = 10 →
        (proccess_event K e s).mouse_x_smooth = 2 ∧
          (proccess_event K e s).mouse_y_smooth = 2) := by
  have hsx := smooth_eq_smooth_int s.mouse_x e.mouse_x hx hex
  have hsy := smooth_eq_smooth_int s.mouse_y e.mouse_y hy hey
  unfold smooth_int at hsx hsy
  rcases hty with h | h <;>
    · simp only [proccess_event, h, hsx, hsy, true_and]
      intro a b c d
      rw [a, b, c, d]
      decide

/-- C9, witness: a motion event to `(10, 10)` from a pointer at `(0, 0)`. -/
theorem proccess_event_motion_witness :
    (proccess_event ⟨3, 60672, 60689, 60690, -1, 1, false⟩
        ⟨.EVENT_MOUSE_MOVED, 0, 0, 10, 10, 0⟩ ⟨[5, 0, 0], 0, 0, 7, 7, -3, 4⟩).mouse_x_smooth = 2 ∧
      (proccess_event ⟨3, 60672, 60689, 60690, -1, 1, false⟩
        ⟨.EVENT_MOUSE_MOVED, 0, 0, 10, 10, 0⟩ ⟨[5, 0, 0], 0, 0, 7, 7, -3, 4⟩).mouse_y_smooth = 2 :=
  (proccess_event_motion ⟨3, 60672, 60689, 60690, -1, 1, false⟩
    ⟨.EVENT_MOUSE_MOVED, 0, 0, 10, 10, 0⟩ ⟨[5, 0, 0], 0, 0, 7, 7, -3, 4⟩
    (Or.inl rfl) (by decide) (by decide) (by decide) (by decide)).2.2.2.2.2.2 rfl rfl rfl rfl

/-- C10, counterexample: for previous `-1` and current `-1` the exact quotient
`(4p + c) / 5` is `-1`, which is its own ceiling, and the smoothed value is `0`. -/
theorem smooth_not_ceiling :
    IsI16 (-1) ∧ smooth (-1) (-1) = 0 ∧ ⌈(((4 * (-1) + (-1) : Int)) : ℚ) / 5⌉ = -1 := by
  refine ⟨by decide, by decide, ?_⟩
  rw [ceil_div_five]
  decide

/-- C10, as amended: for all signed 16-bit previous `p` and current `c`, the
smoothed value `(p * 4 + c + 4) / 5` with the integer division of C equals the
ceiling of the exact quotient `(4p + c) / 5` exactly when `4p + c ≥ -4` or
`4p + c` leaves remainder 1 modulo 5, and is one more than that ceiling
otherwise. -/
theorem smooth_eq_ceiling_iff (p c : Int) (hp : IsI16 p) (hc : IsI16 c) :
    (smooth p c = ⌈((4 * p + c : Int) : ℚ) / 5⌉ ↔ (-4 ≤ 4 * p + c ∨ (4 * p + c) % 5 = 1)) ∧
      (¬ (-4 ≤ 4 * p + c ∨ (4 * p + c) % 5 = 1) →
        smooth p c = ⌈((4 * p + c : Int) : ℚ) / 5⌉ + 1) := by
  rw [smooth_eq_smooth_int p c hp hc, ceil_div_five]
  unfold smooth_int
  rw [tdiv_five]
  constructor
  · split <;> constructor <;> intro h <;> omega
  · intro h
    split <;> omega

/-- C10, witness: previous 3 and current 4, where `4p + c = 16` and the
smoothed value 4 is the ceiling of `16 / 5`. -/
theorem smooth_eq_ceiling_iff_witness :
    IsI16 3 ∧ IsI16 4 ∧
      (smooth 3 4 = ⌈((4 * 3 + 4 : Int) : ℚ) / 5⌉ ↔
        ((-4 : Int) ≤ 4 * 3 + 4 ∨ ((4 : Int) * 3 + 4) % 5 = 1)) :=
  ⟨by decide, by decide, (smooth_eq_ceiling_iff 3 4 (by decide) (by decide)).1⟩

/-! ## Event translation -/

/-- C11: off Windows `mouse_to_vc` maps raw index 2 to the code the Windows path
gives for raw index 3, and raw index 3 to the code the Windows path gives for
raw index 2, these codes being `VC_MOUSE_MASK | 3` and `VC_MOUSE_MASK | 2`
truncated to 16 bits; for every other index `m` both paths return
`VC_MOUSE_MASK | m` truncated to 16 bits. -/
theorem mouse_to_vc_swap (K : Consts) :
    mouse_to_vc { K with WINDOWS := false } 2 = mouse_to_vc { K with WINDOWS := true } 3 ∧
      mouse_to_vc { K with WINDOWS := false } 3 = mouse_to_vc { K with WINDOWS := true } 2 ∧
      mouse_to_vc { K with WINDOWS := true } 3 =
        ((Int.lor (K.VC_MOUSE_MASK : Int) 3) % 65536).toNat ∧
      mouse_to_vc { K with WINDOWS := true } 2 =
        ((Int.lor (K.VC_MOUSE_MASK : Int) 2) % 65536).toNat ∧
      ∀ m : Int, m ≠ 2 → m ≠ 3 →
        mouse_to_vc { K with WINDOWS := false } m =
            ((Int.lor (K.VC_MOUSE_MASK : Int) m) % 65536).toNat ∧
          mouse_to_vc { K with WINDOWS := true } m =
            ((Int.lor (K.VC_MOUSE_MASK : Int) m) % 65536).toNat := by
  refine ⟨by simp [mouse_to_vc], by simp [mouse_to_vc], by simp [mouse_to_vc],
    by simp [mouse_to_vc], ?_⟩
  intro m h2 h3
  simp [mouse_to_vc, h2, h3]

/-- C11, witness: under the mask `0xED00` the raw indices 2 and 3 give `0xED03`
and `0xED02` off Windows, `0xED02` and `0xED03` on Windows, and raw index 1
gives `0xED01` on both paths. -/
theorem mouse_to_vc_swap_witness :
    (mouse_to_vc { (⟨4, 60672, 60689, 60690, -1, 1, false⟩ : Consts) with WINDOWS := false } 2 =
        60675 ∧
      mouse_to_vc { (⟨4, 60672, 60689, 60690, -1, 1, false⟩ : Consts) with WINDOWS := false } 3 =
        60674 ∧
      mouse_to_vc { (⟨4, 60672, 60689, 60690, -1, 1, false⟩ : Consts) with WINDOWS := true } 2 =
        60674 ∧
      mouse_to_vc { (⟨4, 60672, 60689, 60690, -1, 1, false⟩ : Consts) with WINDOWS := true } 3 =
        60675) ∧
      (mouse_to_vc { (⟨4, 60672, 60689, 60690, -1, 1, false⟩ : Consts) with WINDOWS := false } 1 =
        60673 ∧
      mouse_to_vc { (⟨4, 60672, 60689, 60690, -1, 1, false⟩ : Consts) with WINDOWS := true } 1 =
        60673) :=
  have h := mouse_to_vc_swap ⟨4, 60672, 60689, 60690, -1, 1, false⟩
  have h1 := h.2.2.2.2 1 (by decide) (by decide)
  ⟨⟨h.1.trans (h.2.2.1.trans (by decide)), h.2.1.trans (h.2.2.2.1.trans (by decide)),
      h.2.2.2.1.trans (by decide), h.2.2.1.trans (by decide)⟩,
    ⟨h1.1.trans (by decide), h1.2.trans (by decide)⟩⟩

/-- C12, counterexample: with wheel codes 60689 and 60690, a key-up event for
`VC_UNDEFINED` on the duplicate-free registry `[5, 0]` leaves `VC_UNDEFINED`
present; a key-down event for `VC_UNDEFINED` on `[0, 0]`, where it is absent
and a slot is free, leaves it absent; and a key-down event for 5 on `[0, 6]`
changes `util_key_exists` for the other code `VC_UNDEFINED` from true to false. -/
theorem proccess_event_key_undefined :
    (NoDupKeys [5, 0] ∧
        util_key_exists (proccess_event ⟨2, 60672, 60689, 60690, -1, 1, false⟩
          ⟨.EVENT_KEY_RELEASED, VC_UNDEFINED, 0, 0, 0, 0⟩
          ⟨[5, 0], 0, 0, 0, 0, 0, 0⟩).pressed_keys VC_UNDEFINED = true) ∧
      (util_key_exists (wheel_preclear ⟨2, 60672, 60689, 60690, -1, 1, false⟩ [0, 0])
          VC_UNDEFINED = false ∧
        VC_UNDEFINED ∈ wheel_preclear ⟨2, 60672, 60689, 60690, -1, 1, false⟩ [0, 0] ∧
        util_key_exists (proccess_event ⟨2, 60672, 60689, 60690, -1, 1, false⟩
          ⟨.EVENT_KEY_PRESSED, VC_UNDEFINED, 0, 0, 0, 0⟩
          ⟨[0, 0], 0, 0, 0, 0, 0, 0⟩).pressed_keys VC_UNDEFINED = false) ∧
      (util_key_exists [0, 6] VC_UNDEFINED = true ∧
        (proccess_event ⟨2, 60672, 60689, 60690, -1, 1, false⟩
          ⟨.EVENT_KEY_PRESSED, 5, 0, 0, 0, 0⟩ ⟨[0, 6], 0, 0, 0, 0, 0, 0⟩).pressed_keys = [5, 6] ∧
        util_key_exists (proccess_event ⟨2, 60672, 60689, 60690, -1, 1, false⟩
          ⟨.EVENT_KEY_PRESSED, 5, 0, 0, 0, 0⟩
          ⟨[0, 6], 0, 0, 0, 0, 0, 0⟩).pressed_keys VC_UNDEFINED = false) := by
  decide

/-- C12, as amended: for every registry state and every keyboard code `k` other
than `VC_UNDEFINED`: after `proccess_event` on a key-down event for `k` with a
free slot available after the wheel pre-clear, `k` is present; after
`proccess_event` on a key-up event for `k` in a duplicate-free registry, `k`
is absent; in both cases `util_key_exists` is unchanged for every code other
than `k`, `VC_UNDEFINED` and the two wheel codes. -/
theorem proccess_event_key (K : Consts) (e : uiohook_event) (s : HookState)
    (hk : e.keyboard_keycode ≠ VC_UNDEFINED) :
    (e.type = event_type.EVENT_KEY_PRESSED →
        VC_UNDEFINED ∈ wheel_preclear K s.pressed_keys →
        util_key_exists (proccess_event K e s).pressed_keys e.keyboard_keycode = true) ∧
      (e.type = event_type.EVENT_KEY_RELEASED → NoDupKeys s.pressed_keys →
        util_key_exists (proccess_event K e s).pressed_keys e.keyboard_keycode = false) ∧
      (e.type = event_type.EVENT_KEY_PRESSED ∨ e.type = event_type.EVENT_KEY_RELEASED →
        ∀ c, c ≠ e.keyboard_keycode → c ≠ VC_UNDEFINED →
          c ≠ toU16 K.VC_MOUSE_WHEEL_UP → c ≠ toU16 K.VC_MOUSE_WHEEL_DOWN →
          util_key_exists (proccess_event K e s).pressed_keys c =
            util_key_exists s.pressed_keys c) := by
  refine ⟨?_, ?_, ?_⟩
  · intro hty hfree
    rw [proccess_event_key_pressed K e s hty]
    exact util_key_exists_add_self _ hk (Or.inr hfree)
  · intro hty hnd
    rw [proccess_event_key_released K e s hty]
    exact util_key_exists_remove_self _ hk (noDupKeys_wheel_preclear K _ hnd)
  · intro hty c hc hc0 hup hdown
    rcases hty with hty | hty
    · rw [proccess_event_key_pressed K e s hty, util_key_exists_add_of_ne _ _ hc0 hc]
      exact util_key_exists_preclear_of_ne K _ hc0 hup hdown
    · rw [proccess_event_key_released K e s hty, util_key_exists_remove_of_ne _ _ hc0 hc]
      exact util_key_exists_preclear_of_ne K _ hc0 hup hdown

/-- C12, witness: a key-down event for code 7 on `[5, 0, 0]`. -/
theorem proccess_event_key_witness :
    (7 : Nat) ≠ VC_UNDEFINED ∧
      VC_UNDEFINED ∈ wheel_preclear ⟨3, 60672, 60689, 60690, -1, 1, false⟩ [5, 0, 0] ∧
      util_key_exists (proccess_event ⟨3, 60672, 60689, 60690, -1, 1, false⟩
        ⟨.EVENT_KEY_PRESSED, 7, 0, 0, 0, 0⟩ ⟨[5, 0, 0], 0, 0, 0, 0, 0, 0⟩).pressed_keys 7 = true :=
  ⟨by decide, by decide,
    (proccess_event_key ⟨3, 60672, 60689, 60690, -1, 1, false⟩
      ⟨.EVENT_KEY_PRESSED, 7, 0, 0, 0, 0⟩ ⟨[5, 0, 0], 0, 0, 0, 0, 0, 0⟩ (by decide)).1 rfl
      (by decide)⟩

/-- C14: for every duplicate-free registry state and every wheel event,
`proccess_event` first removes both wheel codes and then adds only the code
matching the rotation: after a wheel-up event `VC_MOUSE_WHEEL_DOWN` is absent,
and `VC_MOUSE_WHEEL_UP` is present whenever a slot is free after the
pre-clear; symmetrically for wheel-down; and after a wheel event whose
rotation is neither value the registry is the pre-cleared one, with both wheel
codes absent; no other global is written. The wheel macros are taken to be two distinct codes other than
`VC_UNDEFINED`, with distinct rotation values. -/
theorem proccess_event_wheel_pulse (K : Consts) (e : uiohook_event) (s : HookState)
    (hK : WheelCodesValid K) (hnd : NoDupKeys s.pressed_keys)
    (hty : e.type = event_type.EVENT_MOUSE_WHEEL) :
    (util_key_exists (wheel_preclear K s.pressed_keys) (toU16 K.VC_MOUSE_WHEEL_UP) = false ∧
        util_key_exists (wheel_preclear K s.pressed_keys) (toU16 K.VC_MOUSE_WHEEL_DOWN) =
          false) ∧
      (e.wheel_rotation = K.WHEEL_UP →
        (proccess_event K e s).pressed_keys =
            util_add_pressed (wheel_preclear K s.pressed_keys) (toU16 K.VC_MOUSE_WHEEL_UP) ∧
          util_key_exists (proccess_event K e s).pressed_keys (toU16 K.VC_MOUSE_WHEEL_DOWN) =
            false ∧
          (VC_UNDEFINED ∈ wheel_preclear K s.pressed_keys →
            util_key_exists (proccess_event K e s).pressed_keys (toU16 K.VC_MOUSE_WHEEL_UP) =
              true)) ∧
      (e.wheel_rotation = K.WHEEL_DOWN →
        (proccess_event K e s).pressed_keys =
            util_add_pressed (wheel_preclear K s.pressed_keys) (toU16 K.VC_MOUSE_WHEEL_DOWN) ∧
          util_key_exists (proccess_event K e s).pressed_keys (toU16 K.VC_MOUSE_WHEEL_UP) =
            false ∧
          (VC_UNDEFINED ∈ wheel_preclear K s.pressed_keys →
            util_key_exists (proccess_event K e s).pressed_keys (toU16 K.VC_MOUSE_WHEEL_DOWN) =
              true)) ∧
      (e.wheel_rotation ≠ K.WHEEL_UP → e.wheel_rotation ≠ K.WHEEL_DOWN →
        (proccess_event K e s).pressed_keys = wheel_preclear K s.pressed_keys ∧
          util_key_exists (proccess_event K e s).pressed_keys (toU16 K.VC_MOUSE_WHEEL_UP) =
            false ∧
          util_key_exists (proccess_event K e s).pressed_keys (toU16 K.VC_MOUSE_WHEEL_DOWN) =
            false) ∧
      proccess_event K e s = { s with pressed_keys := (proccess_event K e s).pressed_keys } := by
  obtain ⟨hup0, hdown0, hne, hrot⟩ := hK
  have hupn := not_mem_wheel_preclear_up K s.pressed_keys hnd hup0
  have hdownn := not_mem_wheel_preclear_down K s.pressed_keys hnd hdown0
  have hw := proccess_event_wheel K e s hty
  refine ⟨⟨util_key_exists_eq_false_of_not_mem _ hupn,
    util_key_exists_eq_false_of_not_mem _ hdownn⟩, ?_, ?_, ?_, ?_⟩
  · intro hr
    rw [hw, if_pos hr]
    refine ⟨rfl, ?_, ?_⟩
    · exact util_key_exists_eq_false_of_not_mem _
        (not_mem_util_add_pressed_of_ne _ _ hdown0 (fun h => hne h.symm) hdownn)
    · intro hfree
      exact util_key_exists_add_self _ hup0 (Or.inr hfree)
  · intro hr
    have hr2 : ¬ e.wheel_rotation = K.WHEEL_UP := fun h => hrot (h.symm.trans hr)
    rw [hw, if_neg hr2, if_pos hr]
    refine ⟨rfl, ?_, ?_⟩
    · exact util_key_exists_eq_false_of_not_mem _
        (not_mem_util_add_pressed_of_ne _ _ hup0 hne hupn)
    · intro hfree
      exact util_key_exists_add_self _ hdown0 (Or.inr hfree)
  · intro h1 h2
    rw [hw, if_neg h1, if_neg h2]
    exact ⟨rfl, util_key_exists_eq_false_of_not_mem _ hupn,
      util_key_exists_eq_false_of_not_mem _ hdownn⟩
  · simp only [proccess_event, hty]
    split_ifs <;> rfl

/-- C14, witness: on `[60690, 6, 0]`, which holds the wheel-down code, a
wheel-up event leaves wheel-down absent and wheel-up present, and a wheel
event of rotation 5, which is neither direction, leaves `[0, 6, 0]`. -/
theorem proccess_event_wheel_pulse_witness :
    WheelCodesValid ⟨3, 60672, 60689, 60690, -1, 1, false⟩ ∧ NoDupKeys [60690, 6, 0] ∧
      (util_key_exists (proccess_event ⟨3, 60672, 60689, 60690, -1, 1, false⟩
          ⟨.EVENT_MOUSE_WHEEL, 0, 0, 0, 0, -1⟩
          ⟨[60690, 6, 0], 0, 0, 0, 0, 0, 0⟩).pressed_keys (toU16 60690) = false ∧
        util_key_exists (proccess_event ⟨3, 60672, 60689, 60690, -1, 1, false⟩
          ⟨.EVENT_MOUSE_WHEEL, 0, 0, 0, 0, -1⟩
          ⟨[60690, 6, 0], 0, 0, 0, 0, 0, 0⟩).pressed_keys (toU16 60689) = true) ∧
      (proccess_event ⟨3, 60672, 60689, 60690, -1, 1, false⟩
        ⟨.EVENT_MOUSE_WHEEL, 0, 0, 0, 0, 5⟩
        ⟨[60690, 6, 0], 0, 0, 0, 0, 0, 0⟩).pressed_keys = [0, 6, 0] :=
  have h := (proccess_event_wheel_pulse ⟨3, 60672, 60689, 60690, -1, 1, false⟩
    ⟨.EVENT_MOUSE_WHEEL, 0, 0, 0, 0, -1⟩ ⟨[60690, 6, 0], 0, 0, 0, 0, 0, 0⟩
    (by decide) (by decide) rfl).2.1 rfl
  have h5 := (proccess_event_wheel_pulse ⟨3, 60672, 60689, 60690, -1, 1, false⟩
    ⟨.EVENT_MOUSE_WHEEL, 0, 0, 0, 0, 5⟩ ⟨[60690, 6, 0], 0, 0, 0, 0, 0, 0⟩
    (by decide) (by decide) rfl).2.2.2.1 (by decide) (by decide)
  ⟨by decide, by decide, ⟨h.2.1, h.2.2 (by decide)⟩, h5.1.trans (by decide)⟩

/-- C15: starting from any duplicate-free registry, after two consecutive
wheel-up events at most one slot holds `VC_MOUSE_WHEEL_UP`, and the same holds
after every initial part of any sequence of wheel events. The wheel-up macro is
taken to differ from `VC_UNDEFINED`. -/
theorem wheel_up_at_most_once (K : Consts) (s : HookState)
    (hup : toU16 K.VC_MOUSE_WHEEL_UP ≠ VC_UNDEFINED) (hnd : NoDupKeys s.pressed_keys) :
    (∀ e1 e2 : uiohook_event,
        e1.type = event_type.EVENT_MOUSE_WHEEL → e1.wheel_rotation = K.WHEEL_UP →
        e2.type = event_type.EVENT_MOUSE_WHEEL → e2.wheel_rotation = K.WHEEL_UP →
        (proccess_event K e2 (proccess_event K e1 s)).pressed_keys.count
          (toU16 K.VC_MOUSE_WHEEL_UP) ≤ 1) ∧
      ∀ es : List uiohook_event, (∀ e ∈ es, e.type = event_type.EVENT_MOUSE_WHEEL) →
        ∀ n, (run_events K (es.take n) s).pressed_keys.count (toU16 K.VC_MOUSE_WHEEL_UP) ≤ 1 := by
  constructor
  · intro e1 e2 _ _ _ _
    exact count_le_one_of_noDupKeys _ hup
      (noDupKeys_proccess_event K e2 _ (noDupKeys_proccess_event K e1 s hnd))
  · intro es _ n
    exact count_le_one_of_noDupKeys _ hup (noDupKeys_run_events K (es.take n) s hnd)

/-- C15, witness: two wheel-up events on `[5, 0, 0]`. -/
theorem wheel_up_at_most_once_witness :
    toU16 60689 ≠ VC_UNDEFINED ∧ NoDupKeys [5, 0, 0] ∧
      (proccess_event ⟨3, 60672, 60689, 60690, -1, 1, false⟩
        ⟨.EVENT_MOUSE_WHEEL, 0, 0, 0, 0, -1⟩
        (proccess_event ⟨3, 60672, 60689, 60690, -1, 1, false⟩
          ⟨.EVENT_MOUSE_WHEEL, 0, 0, 0, 0, -1⟩
          ⟨[5, 0, 0], 0, 0, 0, 0, 0, 0⟩)).pressed_keys.count (toU16 60689) ≤ 1 :=
  ⟨by decide, by decide,
    (wheel_up_at_most_once ⟨3, 60672, 60689, 60690, -1, 1, false⟩
      ⟨[5, 0, 0], 0, 0, 0, 0, 0, 0⟩ (by decide) (by decide)).1
      ⟨.EVENT_MOUSE_WHEEL, 0, 0, 0, 0, -1⟩ ⟨.EVENT_MOUSE_WHEEL, 0, 0, 0, 0, -1⟩
      rfl rfl rfl rfl⟩

/-- C16: a wheel pulse never sticks. For every duplicate-free registry state and
every event that is not a wheel rotation, and whose key or button code (where
it is pressed) is not itself a wheel code, neither `VC_MOUSE_WHEEL_UP` nor
`VC_MOUSE_WHEEL_DOWN` is present after `proccess_event`. The wheel macros are
taken to differ from `VC_UNDEFINED`, and the event is read through the `data`
union. -/
theorem wheel_pulse_never_sticks (K : Consts) (e : uiohook_event) (s : HookState)
    (hup : toU16 K.VC_MOUSE_WHEEL_UP ≠ VC_UNDEFINED)
    (hdown : toU16 K.VC_MOUSE_WHEEL_DOWN ≠ VC_UNDEFINED)
    (hnd : NoDupKeys s.pressed_keys) (hty : e.type ≠ event_type.EVENT_MOUSE_WHEEL)
    (hov : UnionOverlay e)
    (hkey : e.type = event_type.EVENT_KEY_PRESSED →
      e.keyboard_keycode ≠ toU16 K.VC_MOUSE_WHEEL_UP ∧
        e.keyboard_keycode ≠ toU16 K.VC_MOUSE_WHEEL_DOWN)
    (hbtn : e.type = event_type.EVENT_MOUSE_PRESSED →
      mouse_to_vc K e.mouse_button ≠ toU16 K.VC_MOUSE_WHEEL_UP ∧
        mouse_to_vc K e.mouse_button ≠ toU16 K.VC_MOUSE_WHEEL_DOWN) :
    util_key_exists (proccess_event K e s).pressed_keys (toU16 K.VC_MOUSE_WHEEL_UP) = false ∧
      util_key_exists (proccess_event K e s).pressed_keys (toU16 K.VC_MOUSE_WHEEL_DOWN) =
        false := by
  have hupn := not_mem_wheel_preclear_up K s.pressed_keys hnd hup
  have hdownn := not_mem_wheel_preclear_down K s.pressed_keys hnd hdown
  have hkb : e.keyboard_keycode = e.mouse_button := hov
  by_cases h1 : e.type = event_type.EVENT_KEY_PRESSED
  · rw [proccess_event_key_pressed K e s h1]
    exact ⟨util_key_exists_eq_false_of_not_mem _
        (not_mem_util_add_pressed_of_ne _ _ hup (fun h => (hkey h1).1 h.symm) hupn),
      util_key_exists_eq_false_of_not_mem _
        (not_mem_util_add_pressed_of_ne _ _ hdown (fun h => (hkey h1).2 h.symm) hdownn)⟩
  by_cases h2 : e.type = event_type.EVENT_KEY_RELEASED
  · rw [proccess_event_key_released K e s h2]
    exact ⟨util_key_exists_eq_false_of_not_mem _
        (not_mem_util_remove_pressed_of_not_mem _ _ hup hupn),
      util_key_exists_eq_false_of_not_mem _
        (not_mem_util_remove_pressed_of_not_mem _ _ hdown hdownn)⟩
  by_cases h3 : e.type = event_type.EVENT_MOUSE_PRESSED
  · rw [proccess_event_mouse_pressed K e s h3, hkb]
    exact ⟨util_key_exists_eq_false_of_not_mem _
        (not_mem_util_add_pressed_of_ne _ _ hup (fun h => (hbtn h3).1 h.symm) hupn),
      util_key_exists_eq_false_of_not_mem _
        (not_mem_util_add_pressed_of_ne _ _ hdown (fun h => (hbtn h3).2 h.symm) hdownn)⟩
  by_cases h4 : e.type = event_type.EVENT_MOUSE_RELEASED
  · rw [proccess_event_mouse_released K e s h4]
    exact ⟨util_key_exists_eq_false_of_not_mem _
        (not_mem_util_remove_pressed_of_not_mem _ _ hup hupn),
      util_key_exists_eq_false_of_not_mem _
        (not_mem_util_remove_pressed_of_not_mem _ _ hdown hdownn)⟩
  · rw [proccess_event_other K e s h1 h2 h3 h4 hty]
    exact ⟨util_key_exists_eq_false_of_not_mem _ hupn,
      util_key_exists_eq_false_of_not_mem _ hdownn⟩

/-- C16, witness: a key-down event for code 7 on `[60689, 5, 0]`, which holds the
wheel-up code. -/
theorem wheel_pulse_never_sticks_witness :
    NoDupKeys [60689, 5, 0] ∧
      util_key_exists (proccess_event ⟨3, 60672, 60689, 60690, -1, 1, false⟩
        ⟨.EVENT_KEY_PRESSED, 7, 7, 0, 0, 0⟩
        ⟨[60689, 5, 0], 0, 0, 0, 0, 0, 0⟩).pressed_keys (toU16 60689) = false ∧
      util_key_exists (proccess_event ⟨3, 60672, 60689, 60690, -1, 1, false⟩
        ⟨.EVENT_KEY_PRESSED, 7, 7, 0, 0, 0⟩
        ⟨[60689, 5, 0], 0, 0, 0, 0, 0, 0⟩).pressed_keys (toU16 60690) = false :=
  ⟨by decide,
    wheel_pulse_never_sticks ⟨3, 60672, 60689, 60690, -1, 1, false⟩
      ⟨.EVENT_KEY_PRESSED, 7, 7, 0, 0, 0⟩ ⟨[60689, 5, 0], 0, 0, 0, 0, 0, 0⟩
      (by decide) (by decide) (by decide) (by decide) (by decide)
      (fun _ => by decide) (fun h => by cases h)⟩

/-- C17, counterexample: with wheel-up code 60689, on the registry `[7, 60689]`
(key 7 held, wheel-up pulse pending) a key-up event for 7 leaves `[0, 0]`: two
slots differ between the state before and the state after the call. -/
theorem proccess_event_two_slots_differ :
    (proccess_event ⟨2, 60672, 60689, 60690, -1, 1, false⟩
        ⟨.EVENT_KEY_RELEASED, 7, 7, 0, 0, 0⟩ ⟨[7, 60689], 0, 0, 0, 0, 0, 0⟩).pressed_keys =
        [0, 0] ∧
      differing_slots [7, 60689]
        (proccess_event ⟨2, 60672, 60689, 60690, -1, 1, false⟩
          ⟨.EVENT_KEY_RELEASED, 7, 7, 0, 0, 0⟩ ⟨[7, 60689], 0, 0, 0, 0, 0, 0⟩).pressed_keys =
        2 := by
  decide

/-- C17, as amended: for every registry state and every raw input event,
`proccess_event` first removes the two wheel codes, which changes at most two
slots, and then performs zero or one registry mutation: at most one slot
differs between the registry left by the wheel pre-clear and the registry after
the call, and at most three slots differ between the state before and the
state after the call. -/
theorem proccess_event_slots_changed (K : Consts) (e : uiohook_event) (s : HookState) :
    differing_slots s.pressed_keys (wheel_preclear K s.pressed_keys) ≤ 2 ∧
      differing_slots (wheel_preclear K s.pressed_keys) (proccess_event K e s).pressed_keys ≤ 1 ∧
      differing_slots s.pressed_keys (proccess_event K e s).pressed_keys ≤ 3 := by
  have h1 := differing_slots_preclear K s.pressed_keys
  have h2 := differing_slots_after_preclear K e s
  have h3 := differing_slots_triangle s.pressed_keys (wheel_preclear K s.pressed_keys)
    (proccess_event K e s).pressed_keys (wheel_preclear_length K _).symm
  exact ⟨h1, h2, by omega⟩

/-! ## Hook lifecycle -/

/-- C18, evaluation at the failing input: when the thread was created and the
trylock succeeds, the Windows path of `hook_enable` joins the thread and
returns `UIOHOOK_FAILURE` whatever status the thread reported, while the POSIX
path returns what `hook_thread_proc` stored; when the trylock fails both paths
return `UIOHOOK_SUCCESS` without joining. With `UIOHOOK_SUCCESS = 0`,
`UIOHOOK_FAILURE = 1` and a thread that reports out-of-memory (2), Windows
returns 1 and POSIX returns 2. -/
theorem hook_enable_windows_status_lost (K : Consts) (C : StatusCodes) (c g : Int) :
    hook_enable { K with WINDOWS := true } C ⟨true, true, c, g⟩ =
        some { status := C.UIOHOOK_FAILURE, joined := true } ∧
      hook_enable { K with WINDOWS := false } C ⟨true, true, c, g⟩ =
        some { status := hook_thread_proc C c g, joined := true } ∧
      hook_enable { K with WINDOWS := true } C ⟨true, false, c, g⟩ =
        some { status := C.UIOHOOK_SUCCESS, joined := false } ∧
      hook_enable { K with WINDOWS := false } C ⟨true, false, c, g⟩ =
        some { status := C.UIOHOOK_SUCCESS, joined := false } ∧
      hook_enable { K with WINDOWS := true } ⟨0, 1⟩ ⟨true, true, 2, g⟩ =
        some { status := 1, joined := true } ∧
      hook_enable { K with WINDOWS := false } ⟨0, 1⟩ ⟨true, true, 2, g⟩ =
        some { status := 2, joined := true } := by
  refine ⟨rfl, rfl, rfl, rfl, rfl, ?_⟩
  simp [hook_enable, hook_thread_proc]

/-- C19, counterexample: a controller whose registry holds code 5 and whose
pointer is at `(3, 4)`; after `end_hook` the registry and the mouse globals are
what they were, and `util_key_exists` is still true for 5. -/
theorem end_hook_keeps_globals :
    (end_hook ⟨2, 60672, 60689, 60690, -1, 1, false⟩
        ⟨true, ⟨1, 0⟩, ⟨1, 0⟩, ⟨1, 0⟩, 0, 0, ⟨[5, 0], 3, 4, 2, 3, 1, 1⟩⟩).globals =
        ⟨[5, 0], 3, 4, 2, 3, 1, 1⟩ ∧
      util_key_exists (end_hook ⟨2, 60672, 60689, 60690, -1, 1, false⟩
        ⟨true, ⟨1, 0⟩, ⟨1, 0⟩, ⟨1, 0⟩, 0, 0,
          ⟨[5, 0], 3, 4, 2, 3, 1, 1⟩⟩).globals.pressed_keys 5 = true := by
  decide

/-- C19, as amended: `end_hook` leaves the key registry and the mouse pointer
state (current, previous, smoothed) exactly as they were, for every state they
were in before the call; clearing is what `util_clear_pressed` does, after
which every slot is `VC_UNDEFINED` and `util_key_exists` is false for every
code. -/
theorem end_hook_globals_unchanged (K : Consts) (c : Controller) :
    (end_hook K c).globals = c.globals ∧
      ∀ r : List Nat, (∀ x ∈ util_clear_pressed r, x = VC_UNDEFINED) ∧
        ∀ vc, util_key_exists (util_clear_pressed r) vc = false :=
  ⟨rfl, fun r => ⟨fun _ hx => mem_util_clear_pressed r hx, util_key_exists_clear r⟩⟩

/-- C20, counterexample: on a Stopped controller (`hook_initialized` false, no
primitive ever created, `hook_stop` never called) `end_hook` makes one
destroying call on each primitive and one `hook_stop` call; and after a
successful `start_hook`, two `end_hook` calls destroy each primitive twice. -/
theorem end_hook_not_guarded :
    end_hook ⟨2, 60672, 60689, 60690, -1, 1, false⟩
        ⟨false, ⟨0, 0⟩, ⟨0, 0⟩, ⟨0, 0⟩, 0, 0, ⟨[0, 0], 0, 0, 0, 0, 0, 0⟩⟩ =
        ⟨false, ⟨0, 1⟩, ⟨0, 1⟩, ⟨0, 1⟩, 0, 1, ⟨[0, 0], 0, 0, 0, 0, 0, 0⟩⟩ ∧
      start_hook ⟨2, 60672, 60689, 60690, -1, 1, false⟩ ⟨0, 1⟩ ⟨true, false, 0, 0⟩
          ⟨false, ⟨0, 0⟩, ⟨0, 0⟩, ⟨0, 0⟩, 0, 0, ⟨[0, 0], 0, 0, 0, 0, 0, 0⟩⟩ =
        some ⟨true, ⟨1, 0⟩, ⟨1, 0⟩, ⟨1, 0⟩, 0, 0, ⟨[0, 0], 0, 0, 0, 0, 0, 0⟩⟩ ∧
      end_hook ⟨2, 60672, 60689, 60690, -1, 1, false⟩
        (end_hook ⟨2, 60672, 60689, 60690, -1, 1, false⟩
          ⟨true, ⟨1, 0⟩, ⟨1, 0⟩, ⟨1, 0⟩, 0, 0, ⟨[0, 0], 0, 0, 0, 0, 0, 0⟩⟩) =
        ⟨true, ⟨1, 2⟩, ⟨1, 2⟩, ⟨1, 2⟩, 0, 2, ⟨[0, 0], 0, 0, 0, 0, 0, 0⟩⟩ := by
  decide

/-- C20, as amended: `end_hook` does not test `hook_initialized`. In every
controller state, Stopped included, one call makes one destroying call on each
of the three primitives and one `hook_stop` call, and leaves
`hook_initialized`, the creating calls and the globals as they were. -/
theorem end_hook_every_state (K : Consts) (c : Controller) :
    (end_hook K c).hook_running_mutex.destroy_calls = c.hook_running_mutex.destroy_calls + 1 ∧
      (end_hook K c).hook_control_mutex.destroy_calls =
        c.hook_control_mutex.destroy_calls + 1 ∧
      (end_hook K c).hook_control_cond.destroy_calls = c.hook_control_cond.destroy_calls + 1 ∧
      (end_hook K c).hook_stop_calls = c.hook_stop_calls + 1 ∧
      (end_hook K c).hook_initialized = c.hook_initialized ∧
      (end_hook K c).hook_running_mutex.init_calls = c.hook_running_mutex.init_calls ∧
      (end_hook K c).hook_control_mutex.init_calls = c.hook_control_mutex.init_calls ∧
      (end_hook K c).hook_control_cond.init_calls = c.hook_control_cond.init_calls ∧
      (end_hook K c).globals = c.globals :=
  ⟨rfl, rfl, rfl, rfl, rfl, rfl, rfl, rfl, rfl⟩

/-! ## Snapshot of the registry into the layout -/

/-- C21: for every loaded layout of type keyboard or mouse and every registry
state, `InputSource::check_keys` returns, and afterwards each key `i` below
`m_key_count` has `m_pressed` equal to `util_key_exists` of its code, whatever
the flag was before; when the layout is not loaded `check_keys` changes
nothing. The layout is taken as `load_layout` leaves it, `m_key_count` not
exceeding the number of keys. -/
theorem check_keys_snapshot (G : List InputKey → List InputKey) (r : List Nat)
    (self : InputSource) :
    (self.m_layout.m_is_loaded = true →
        (self.m_layout.m_type = LayoutType.TYPE_KEYBOARD ∨
          self.m_layout.m_type = LayoutType.TYPE_MOUSE) →
        self.m_layout.m_key_count ≤ self.m_layout.m_keys.length →
        ∃ after, InputSource.check_keys G r self = some after ∧
          ∀ (i : Nat) (k : InputKey), (i : Int) < self.m_layout.m_key_count →
            self.m_layout.m_keys[i]? = some k →
            after.m_layout.m_keys[i]? =
              some { m_key_code := k.m_key_code,
                     m_pressed := util_key_exists r k.m_key_code }) ∧
      (self.m_layout.m_is_loaded = false → InputSource.check_keys G r self = some self) := by
  constructor
  · intro hl hty hn
    obtain ⟨ks, hks, hspec⟩ := check_keys_loaded_spec G r self hl hty hn
    exact ⟨_, hks, hspec⟩
  · intro hl
    simp [InputSource.check_keys, hl]

/-- C21, witness: a keyboard layout of four keys with `m_key_count = 3`, two
stale flags, against the registry `[5, 0, 7]`. -/
theorem check_keys_snapshot_witness :
    ∃ after, InputSource.check_keys id [5, 0, 7]
        ⟨⟨true, .TYPE_KEYBOARD, 3, [⟨5, false⟩, ⟨6, true⟩, ⟨9, true⟩, ⟨7, false⟩]⟩⟩ =
          some after ∧
      ∀ (i : Nat) (k : InputKey), (i : Int) < 3 →
        [(⟨5, false⟩ : InputKey), ⟨6, true⟩, ⟨9, true⟩, ⟨7, false⟩][i]? = some k →
        after.m_layout.m_keys[i]? =
          some { m_key_code := k.m_key_code,
                 m_pressed := util_key_exists [5, 0, 7] k.m_key_code } :=
  (check_keys_snapshot id [5, 0, 7]
    ⟨⟨true, .TYPE_KEYBOARD, 3, [⟨5, false⟩, ⟨6, true⟩, ⟨9, true⟩, ⟨7, false⟩]⟩⟩).1
    rfl (Or.inl rfl) (by decide)

/-- C22: for all signed 16-bit previous and current coordinates, the value
`(previous * 4 + current + 4) / 5` computed in `int` lies within
`[-32768, 32767]`, the sum it divides lies within the range of a 32-bit `int`,
and the conversion to `int16_t` on the store into the smoothed field returns
it unchanged. -/
theorem smooth_store_exact (p c : Int) (hp : IsI16 p) (hc : IsI16 c) :
    (-32768 ≤ smooth_int p c ∧ smooth_int p c ≤ 32767) ∧
      (-2147483648 ≤ p * 4 + c + 4 ∧ p * 4 + c + 4 ≤ 2147483647) ∧
      smooth p c = smooth_int p c := by
  refine ⟨smooth_int_isI16 p c hp hc, ?_, smooth_eq_smooth_int p c hp hc⟩
  unfold IsI16 at hp hc
  omega

/-- C22, witness: both coordinates at the upper end of the range. -/
theorem smooth_store_exact_witness :
    IsI16 32767 ∧ (-32768 ≤ smooth_int 32767 32767 ∧ smooth_int 32767 32767 ≤ 32767) ∧
      smooth 32767 32767 = smooth_int 32767 32767 :=
  have h := smooth_store_exact 32767 32767 (by decide) (by decide)
  ⟨by decide, h.1, h.2.2⟩

end InputOverlay
